import Mathlib

/-!
Verification of the retrieval-and-agent orchestration engine of the cc-rag
backend.  Each Python function named in a claim is shallowly embedded as an
executable Lean definition; network and model calls (Supabase, the LLM, the
rerank and web-search backends) are passed in as oracle parameters, and IEEE
float arithmetic on similarity scores is modelled over `ℚ`.
-/

/-! ## Reciprocal Rank Fusion — backend/app/services/retrieval_service.py -/

/-- A search result as consumed by `reciprocal_rank_fusion`: a dict carrying
an `id` key and a `similarity` score.  Other dict fields are copied verbatim
by the source and never inspected, so they are omitted. -/
structure RRFEntry where
  id : String
  similarity : ℚ
deriving DecidableEq

/-- The in-place update `fused[chunk_id]["similarity"] += w` applied to one
stored pair. -/
def rrfBump (cid : String) (w : ℚ) (p : String × RRFEntry) : String × RRFEntry :=
  if p.1 = cid then (p.1, { p.2 with similarity := p.2.similarity + w }) else p

/-- One iteration of the accumulation loops of `reciprocal_rank_fusion`
(retrieval_service.py lines 28-40): if the chunk id is not yet a key of
`fused`, insert a copy of the result with similarity reset to 0; then add `w`
to the stored similarity.  The Python `dict` is modelled as an
insertion-ordered association list. -/
def rrfStep (fused : List (String × RRFEntry)) (result : RRFEntry) (w : ℚ) :
    List (String × RRFEntry) :=
  (if fused.any (fun p => decide (p.1 = result.id)) then fused
   else fused ++ [(result.id, { result with similarity := 0 })]).map (rrfBump result.id w)

/-- The loop `for rank, result in enumerate(results, start=rank)`: each result
adds `w * 1/(k + rank)` to its entry. -/
def rrfFold (fused : List (String × RRFEntry)) (results : List RRFEntry)
    (w : ℚ) (k : ℚ) (rank : ℕ) : List (String × RRFEntry) :=
  match results with
  | [] => fused
  | r :: rest => rrfFold (rrfStep fused r (w * (1 / (k + (rank : ℚ))))) rest w k (rank + 1)

/-- Shallow embedding of `reciprocal_rank_fusion` (retrieval_service.py lines
11-44).  `alpha` is clamped to `[0,1]`; the vector list is folded in with
weight `alpha` and the keyword list with weight `1 - alpha`, both ranks
starting at 1; the accumulated values are then sorted by descending fused
score.  Python's `sorted(..., reverse=True)` is a stable descending sort,
which is exactly `List.insertionSort` with the relation `b.sim ≤ a.sim`. -/
def reciprocal_rank_fusion (vector_results keyword_results : List RRFEntry)
    (alpha : ℚ) (k : ℚ) : List RRFEntry :=
  let alpha := max 0 (min 1 alpha)
  let fused1 := rrfFold [] vector_results alpha k 1
  let fused2 := rrfFold fused1 keyword_results (1 - alpha) k 1
  (fused2.map Prod.snd).insertionSort (fun a b => b.similarity ≤ a.similarity)

/-- The 1-based rank of chunk id `cid` in a result list, if present. -/
def rankOf (l : List RRFEntry) (cid : String) : Option ℕ :=
  (l.findIdx? (fun e => decide (e.id = cid))).map (· + 1)

/-- One reciprocal-rank term of the specified score: `1/(k + r)` when the
chunk occurs at rank `r`, and `0` when it is absent from that list. -/
def rrfTerm (k : ℚ) : Option ℕ → ℚ
  | none => 0
  | some r => 1 / (k + (r : ℚ))

/-- The fused score the specification assigns to chunk id `cid` (with `alpha`
clamped to `[0,1]`, as the source does). -/
def rrfSpecScore (vec kw : List RRFEntry) (alpha k : ℚ) (cid : String) : ℚ :=
  let a := max 0 (min 1 alpha)
  a * rrfTerm k (rankOf vec cid) + (1 - a) * rrfTerm k (rankOf kw cid)

/-- Look up the accumulated similarity stored under key `cid` (first match,
as a Python dict has unique keys). -/
def rrfLookup (fused : List (String × RRFEntry)) (cid : String) : Option ℚ :=
  (fused.find? (fun p => decide (p.1 = cid))).map (fun p => p.2.similarity)

/-- Every stored entry's `id` field agrees with its key. -/
def rrfWF (fused : List (String × RRFEntry)) : Prop := ∀ p ∈ fused, p.2.id = p.1

lemma rrfBump_fst (cid : String) (w : ℚ) (p : String × RRFEntry) :
    (rrfBump cid w p).1 = p.1 := by
  unfold rrfBump; split <;> rfl

lemma rrfBump_id (cid : String) (w : ℚ) (p : String × RRFEntry) :
    (rrfBump cid w p).2.id = p.2.id := by
  unfold rrfBump; split <;> rfl

lemma rrfBump_ne (cid : String) (w : ℚ) (p : String × RRFEntry) (h : p.1 ≠ cid) :
    rrfBump cid w p = p := by
  unfold rrfBump; exact if_neg h

lemma bump_map_keys (cid : String) (w : ℚ) (l : List (String × RRFEntry)) :
    (l.map (rrfBump cid w)).map Prod.fst = l.map Prod.fst := by
  rw [List.map_map]
  exact List.map_congr_left fun p _ => rrfBump_fst cid w p

lemma rrfLookup_nil (cid : String) : rrfLookup [] cid = none := rfl

lemma rrfLookup_cons (p : String × RRFEntry) (rest : List (String × RRFEntry))
    (cid : String) :
    rrfLookup (p :: rest) cid =
      if p.1 = cid then some p.2.similarity else rrfLookup rest cid := by
  simp only [rrfLookup, List.find?]
  by_cases hp : p.1 = cid
  · simp [hp]
  · simp [hp]

lemma rrfLookup_bump_ne (l : List (String × RRFEntry)) (cid cid' : String) (w : ℚ)
    (h : cid' ≠ cid) :
    rrfLookup (l.map (rrfBump cid w)) cid' = rrfLookup l cid' := by
  induction l with
  | nil => rfl
  | cons p rest ih =>
    rw [List.map_cons, rrfLookup_cons, rrfLookup_cons, rrfBump_fst, ih]
    by_cases hp : p.1 = cid'
    · have hpc : p.1 ≠ cid := by rw [hp]; exact fun he => h he
      rw [if_pos hp, if_pos hp, rrfBump_ne cid w p hpc]
    · rw [if_neg hp, if_neg hp]

lemma rrfLookup_bump_self (l : List (String × RRFEntry)) (cid : String) (w : ℚ) :
    rrfLookup (l.map (rrfBump cid w)) cid = (rrfLookup l cid).map (· + w) := by
  induction l with
  | nil => rfl
  | cons p rest ih =>
    rw [List.map_cons, rrfLookup_cons, rrfLookup_cons, rrfBump_fst, ih]
    by_cases hp : p.1 = cid
    · rw [if_pos hp, if_pos hp]
      simp [rrfBump, hp]
    · rw [if_neg hp, if_neg hp]

lemma rrfLookup_append (l1 l2 : List (String × RRFEntry)) (cid : String) :
    rrfLookup (l1 ++ l2) cid =
      match rrfLookup l1 cid with
      | some v => some v
      | none => rrfLookup l2 cid := by
  induction l1 with
  | nil => simp [rrfLookup_nil]
  | cons p rest ih =>
    rw [List.cons_append, rrfLookup_cons, rrfLookup_cons, ih]
    by_cases hp : p.1 = cid
    · rw [if_pos hp, if_pos hp]
    · rw [if_neg hp, if_neg hp]

lemma rrfLookup_eq_none (l : List (String × RRFEntry)) (cid : String) :
    rrfLookup l cid = none ↔ cid ∉ l.map Prod.fst := by
  induction l with
  | nil => simp [rrfLookup_nil]
  | cons p rest ih =>
    rw [rrfLookup_cons]
    by_cases hp : p.1 = cid
    · simp [if_pos hp, hp]
    · rw [if_neg hp, ih]
      have hcp : cid ≠ p.1 := fun he => hp he.symm
      simp [hcp]

lemma rrfAny_iff (fused : List (String × RRFEntry)) (cid : String) :
    (fused.any (fun p => decide (p.1 = cid))) = true ↔ cid ∈ fused.map Prod.fst := by
  simp only [List.any_eq_true, decide_eq_true_eq, List.mem_map]

lemma rrfStep_keys (fused : List (String × RRFEntry)) (r : RRFEntry) (w : ℚ) :
    (rrfStep fused r w).map Prod.fst =
      fused.map Prod.fst ++ (if r.id ∈ fused.map Prod.fst then [] else [r.id]) := by
  unfold rrfStep
  by_cases h : r.id ∈ fused.map Prod.fst
  · rw [if_pos ((rrfAny_iff fused r.id).mpr h), bump_map_keys, if_pos h, List.append_nil]
  · have hany : (fused.any (fun p => decide (p.1 = r.id))) = false := by
      rw [← Bool.not_eq_true]
      exact fun hc => h ((rrfAny_iff fused r.id).mp hc)
    simp only [hany, Bool.false_eq_true, if_false]
    rw [bump_map_keys, List.map_append, if_neg h]
    rfl

lemma rrfStep_mem_keys (fused : List (String × RRFEntry)) (r : RRFEntry) (w : ℚ)
    (cid : String) :
    cid ∈ (rrfStep fused r w).map Prod.fst ↔ cid ∈ fused.map Prod.fst ∨ cid = r.id := by
  rw [rrfStep_keys]
  by_cases h : r.id ∈ fused.map Prod.fst
  · simp only [if_pos h, List.append_nil]
    constructor
    · exact Or.inl
    · rintro (hc | rfl)
      · exact hc
      · exact h
  · simp [if_neg h]

lemma rrfStep_wf (fused : List (String × RRFEntry)) (r : RRFEntry) (w : ℚ)
    (hwf : rrfWF fused) : rrfWF (rrfStep fused r w) := by
  intro p hp
  unfold rrfStep at hp
  simp only [List.mem_map] at hp
  obtain ⟨q, hq, he⟩ := hp
  have hid : p.2.id = q.2.id := by rw [← he, rrfBump_id]
  have hfst : p.1 = q.1 := by rw [← he, rrfBump_fst]
  rw [hid, hfst]
  split at hq
  · exact hwf q hq
  · rcases List.mem_append.mp hq with hq' | hq'
    · exact hwf q hq'
    · simp only [List.mem_singleton] at hq'
      subst hq'
      rfl

lemma rrfStep_nodup (fused : List (String × RRFEntry)) (r : RRFEntry) (w : ℚ)
    (h : (fused.map Prod.fst).Nodup) : ((rrfStep fused r w).map Prod.fst).Nodup := by
  rw [rrfStep_keys]
  by_cases hm : r.id ∈ fused.map Prod.fst
  · simpa [if_pos hm] using h
  · rw [if_neg hm]
    refine List.Nodup.append h (List.nodup_singleton _) ?_
    intro a ha hb
    simp only [List.mem_singleton] at hb
    subst hb
    exact hm ha

lemma rrfStep_lookup_ne (fused : List (String × RRFEntry)) (r : RRFEntry) (w : ℚ)
    (cid : String) (h : cid ≠ r.id) :
    rrfLookup (rrfStep fused r w) cid = rrfLookup fused cid := by
  unfold rrfStep
  by_cases hm : (fused.any (fun p => decide (p.1 = r.id))) = true
  · simp only [hm, if_true]
    exact rrfLookup_bump_ne _ _ _ _ h
  · simp only [hm, Bool.false_eq_true, if_false]
    rw [rrfLookup_bump_ne _ _ _ _ h, rrfLookup_append]
    have hsingle : rrfLookup [(r.id, { r with similarity := 0 })] cid = none := by
      rw [rrfLookup_cons]
      have : (r.id, { r with similarity := 0 }).1 ≠ cid := fun hc => h hc.symm
      rw [if_neg this, rrfLookup_nil]
    cases hl : rrfLookup fused cid <;> simp [hl, hsingle]

lemma rrfStep_lookup_self (fused : List (String × RRFEntry)) (r : RRFEntry) (w : ℚ) :
    rrfLookup (rrfStep fused r w) r.id =
      some ((rrfLookup fused r.id).getD 0 + w) := by
  unfold rrfStep
  by_cases hm : (fused.any (fun p => decide (p.1 = r.id))) = true
  · simp only [hm, if_true]
    rw [rrfLookup_bump_self]
    have hmem : r.id ∈ fused.map Prod.fst := (rrfAny_iff fused r.id).mp hm
    have : rrfLookup fused r.id ≠ none := by
      rw [Ne, rrfLookup_eq_none]
      exact fun hc => hc hmem
    obtain ⟨v, hv⟩ := Option.ne_none_iff_exists'.mp this
    rw [hv]
    rfl
  · simp only [hm, Bool.false_eq_true, if_false]
    have hnone : rrfLookup fused r.id = none := by
      rw [rrfLookup_eq_none]
      exact fun hc => hm ((rrfAny_iff fused r.id).mpr hc)
    rw [rrfLookup_bump_self, rrfLookup_append, hnone]
    rw [rrfLookup_cons]
    simp

lemma rrfFold_lookup_not_mem (results : List RRFEntry) (fused : List (String × RRFEntry))
    (w k : ℚ) (m : ℕ) (cid : String) (h : cid ∉ results.map RRFEntry.id) :
    rrfLookup (rrfFold fused results w k m) cid = rrfLookup fused cid := by
  induction results generalizing fused m with
  | nil => simp [rrfFold]
  | cons r rest ih =>
    simp only [List.map_cons, List.mem_cons, not_or] at h
    simp only [rrfFold]
    rw [ih _ _ h.2, rrfStep_lookup_ne _ _ _ _ h.1]

lemma rrfFold_lookup (results : List RRFEntry) (fused : List (String × RRFEntry))
    (w k : ℚ) (m : ℕ) (cid : String) (hnd : (results.map RRFEntry.id).Nodup) :
    rrfLookup (rrfFold fused results w k m) cid =
      match results.findIdx? (fun e => decide (e.id = cid)) with
      | none => rrfLookup fused cid
      | some i => some ((rrfLookup fused cid).getD 0 + w * (1 / (k + ((m + i : ℕ) : ℚ)))) := by
  induction results generalizing fused m with
  | nil => simp [rrfFold]
  | cons r rest ih =>
    simp only [List.map_cons, List.nodup_cons] at hnd
    by_cases hc : cid = r.id
    · subst hc
      have hidx : ((r :: rest).findIdx? (fun e => decide (e.id = r.id))) = some 0 := by
        rw [List.findIdx?_cons]
        simp
      simp only [rrfFold, hidx]
      rw [rrfFold_lookup_not_mem _ _ _ _ _ _ hnd.1, rrfStep_lookup_self]
      simp
    · have hne : (decide (r.id = cid)) = false := by
        simp only [decide_eq_false_iff_not]
        exact fun hc' => hc hc'.symm
      have hidx : ((r :: rest).findIdx? (fun e => decide (e.id = cid))) =
          (rest.findIdx? (fun e => decide (e.id = cid))).map (· + 1) := by
        rw [List.findIdx?_cons]
        simp [hne]
      simp only [rrfFold, hidx]
      rw [ih _ _ hnd.2, rrfStep_lookup_ne _ _ _ _ hc]
      cases hfind : rest.findIdx? (fun e => decide (e.id = cid)) with
      | none => simp
      | some i =>
        simp only [Option.map_some]
        congr 3
        push_cast
        ring

lemma rrfFold_mem_keys (results : List RRFEntry) (fused : List (String × RRFEntry))
    (w k : ℚ) (m : ℕ) (cid : String) :
    cid ∈ (rrfFold fused results w k m).map Prod.fst ↔
      cid ∈ fused.map Prod.fst ∨ cid ∈ results.map RRFEntry.id := by
  induction results generalizing fused m with
  | nil => simp [rrfFold]
  | cons r rest ih =>
    simp only [rrfFold, ih, rrfStep_mem_keys, List.map_cons, List.mem_cons]
    tauto

lemma rrfFold_wf (results : List RRFEntry) (fused : List (String × RRFEntry))
    (w k : ℚ) (m : ℕ) (h : rrfWF fused) : rrfWF (rrfFold fused results w k m) := by
  induction results generalizing fused m with
  | nil => exact h
  | cons r rest ih => exact ih _ _ (rrfStep_wf _ _ _ h)

lemma rrfFold_nodup (results : List RRFEntry) (fused : List (String × RRFEntry))
    (w k : ℚ) (m : ℕ) (h : (fused.map Prod.fst).Nodup) :
    ((rrfFold fused results w k m).map Prod.fst).Nodup := by
  induction results generalizing fused m with
  | nil => exact h
  | cons r rest ih => exact ih _ _ (rrfStep_nodup _ _ _ h)

lemma rrfLookup_of_mem (fused : List (String × RRFEntry)) (p : String × RRFEntry)
    (hnd : (fused.map Prod.fst).Nodup) (hp : p ∈ fused) :
    rrfLookup fused p.1 = some p.2.similarity := by
  induction fused with
  | nil => simp at hp
  | cons q rest ih =>
    simp only [List.map_cons, List.nodup_cons] at hnd
    rcases List.mem_cons.mp hp with rfl | hp'
    · rw [rrfLookup_cons, if_pos rfl]
    · have hne : q.1 ≠ p.1 := by
        intro he
        exact hnd.1 (he ▸ List.mem_map.mpr ⟨p, hp', rfl⟩)
      rw [rrfLookup_cons, if_neg hne]
      exact ih hnd.2 hp'

lemma rrf_score_of_mem (vec kw : List RRFEntry) (a k : ℚ) (p : String × RRFEntry)
    (hv : (vec.map RRFEntry.id).Nodup) (hk : (kw.map RRFEntry.id).Nodup)
    (hp : p ∈ rrfFold (rrfFold [] vec a k 1) kw (1 - a) k 1) :
    p.2.similarity = a * rrfTerm k (rankOf vec p.1) + (1 - a) * rrfTerm k (rankOf kw p.1) := by
  have hbn : (([] : List (String × RRFEntry)).map Prod.fst).Nodup := by simp
  have hnd1 : ((rrfFold [] vec a k 1).map Prod.fst).Nodup := rrfFold_nodup _ _ _ _ _ hbn
  have hnd2 : ((rrfFold (rrfFold [] vec a k 1) kw (1 - a) k 1).map Prod.fst).Nodup :=
    rrfFold_nodup _ _ _ _ _ hnd1
  have hlook := rrfLookup_of_mem _ p hnd2 hp
  rw [rrfFold_lookup kw _ _ _ _ _ hk, rrfFold_lookup vec _ _ _ _ _ hv, rrfLookup_nil] at hlook
  cases hVi : vec.findIdx? (fun e => decide (e.id = p.1)) with
  | none =>
    cases hKi : kw.findIdx? (fun e => decide (e.id = p.1)) with
    | none =>
      rw [hVi, hKi] at hlook
      simp at hlook
    | some j =>
      rw [hVi, hKi] at hlook
      simp only [Option.getD_none, Option.some_inj] at hlook
      rw [← hlook]
      simp only [rankOf, hVi, hKi, Option.map_none', Option.map_some', rrfTerm]
      push_cast
      ring
  | some i =>
    cases hKi : kw.findIdx? (fun e => decide (e.id = p.1)) with
    | none =>
      rw [hVi, hKi] at hlook
      simp only [Option.getD_some, Option.getD_none, Option.some_inj] at hlook
      rw [← hlook]
      simp only [rankOf, hVi, hKi, Option.map_none', Option.map_some', rrfTerm]
      push_cast
      ring
    | some j =>
      rw [hVi, hKi] at hlook
      simp only [Option.getD_some, Option.getD_none, Option.some_inj] at hlook
      rw [← hlook]
      simp only [rankOf, hVi, hKi, Option.map_some', rrfTerm]
      push_cast
      ring

/-- C1: `reciprocal_rank_fusion` is a deterministic pure function of its two
ranked input lists: each distinct chunk id appears exactly once in the output,
with fused score `a * 1/(k + r) + (1 - a) * 1/(k + r')` where `a` is `alpha`
clamped to `[0,1]`, `r`/`r'` are the 1-based ranks in the vector/keyword list
and a term is 0 when the chunk is absent from that list; the output is sorted
by descending fused score; and on vector ranks A=1,B=2 and keyword ranks
B=1,C=2 with alpha=0.5, k=60 the output order is B, A, C. -/
theorem rrf_fusion_spec (vec kw : List RRFEntry) (alpha k : ℚ)
    (hv : (vec.map RRFEntry.id).Nodup) (hk : (kw.map RRFEntry.id).Nodup) :
    ((reciprocal_rank_fusion vec kw alpha k).map RRFEntry.id).Nodup ∧
    (∀ cid, cid ∈ (reciprocal_rank_fusion vec kw alpha k).map RRFEntry.id ↔
      cid ∈ vec.map RRFEntry.id ∨ cid ∈ kw.map RRFEntry.id) ∧
    (∀ e ∈ reciprocal_rank_fusion vec kw alpha k,
      e.similarity = rrfSpecScore vec kw alpha k e.id) ∧
    List.Sorted (fun a b => b.similarity ≤ a.similarity)
      (reciprocal_rank_fusion vec kw alpha k) ∧
    (reciprocal_rank_fusion [⟨("A"), 0⟩, ⟨("B"), 0⟩] [⟨("B"), 0⟩, ⟨("C"), 0⟩]
        (1/2) 60).map RRFEntry.id = [("B"), ("A"), ("C")] := by
  have hbase : rrfWF ([] : List (String × RRFEntry)) := by intro p hp; simp at hp
  have hbn : (([] : List (String × RRFEntry)).map Prod.fst).Nodup := by simp
  haveI instTot : IsTotal RRFEntry (fun a b => b.similarity ≤ a.similarity) :=
    ⟨fun x y => le_total y.similarity x.similarity⟩
  haveI instTrans : IsTrans RRFEntry (fun a b => b.similarity ≤ a.similarity) :=
    ⟨fun x y z h1 h2 => le_trans h2 h1⟩
  simp only [reciprocal_rank_fusion]
  have hwf1 : rrfWF (rrfFold [] vec (max 0 (min 1 alpha)) k 1) := rrfFold_wf _ _ _ _ _ hbase
  have hwf2 : rrfWF (rrfFold (rrfFold [] vec (max 0 (min 1 alpha)) k 1) kw
      (1 - max 0 (min 1 alpha)) k 1) := rrfFold_wf _ _ _ _ _ hwf1
  have hnd1 : ((rrfFold [] vec (max 0 (min 1 alpha)) k 1).map Prod.fst).Nodup :=
    rrfFold_nodup _ _ _ _ _ hbn
  have hnd2 : ((rrfFold (rrfFold [] vec (max 0 (min 1 alpha)) k 1) kw
      (1 - max 0 (min 1 alpha)) k 1).map Prod.fst).Nodup := rrfFold_nodup _ _ _ _ _ hnd1
  have hids : ((rrfFold (rrfFold [] vec (max 0 (min 1 alpha)) k 1) kw
        (1 - max 0 (min 1 alpha)) k 1).map Prod.snd).map RRFEntry.id =
      (rrfFold (rrfFold [] vec (max 0 (min 1 alpha)) k 1) kw
        (1 - max 0 (min 1 alpha)) k 1).map Prod.fst := by
    rw [List.map_map]
    exact List.map_congr_left fun p hp => hwf2 p hp
  have hperm := List.perm_insertionSort (fun a b => b.similarity ≤ a.similarity)
    ((rrfFold (rrfFold [] vec (max 0 (min 1 alpha)) k 1) kw
      (1 - max 0 (min 1 alpha)) k 1).map Prod.snd)
  refine ⟨?_, ?_, ?_, ?_, ?_⟩
  · exact (hperm.map RRFEntry.id).nodup_iff.mpr (hids ▸ hnd2)
  · intro cid
    rw [(hperm.map RRFEntry.id).mem_iff, hids, rrfFold_mem_keys, rrfFold_mem_keys]
    simp
  · intro e he
    have he2 := hperm.subset he
    obtain ⟨p, hp, rfl⟩ := List.mem_map.mp he2
    have hscore := rrf_score_of_mem vec kw (max 0 (min 1 alpha)) k p hv hk hp
    rw [rrfSpecScore, hwf2 p hp]
    exact hscore
  · exact List.sorted_insertionSort _ _
  · norm_num +decide [reciprocal_rank_fusion, rrfFold, rrfStep, rrfBump,
      List.insertionSort, List.orderedInsert]

/-- Witness for C1: the hypotheses (ranked lists have pairwise-distinct chunk
ids) hold at the concrete A,B / B,C input, and the conclusion follows. -/
theorem rrf_fusion_spec_witness :
    ((([⟨("A"), 0⟩, ⟨("B"), 0⟩] : List RRFEntry).map RRFEntry.id).Nodup ∧
      (([⟨("B"), 0⟩, ⟨("C"), 0⟩] : List RRFEntry).map RRFEntry.id).Nodup) ∧
    (reciprocal_rank_fusion [⟨("A"), 0⟩, ⟨("B"), 0⟩] [⟨("B"), 0⟩, ⟨("C"), 0⟩]
        (1/2) 60).map RRFEntry.id = [("B"), ("A"), ("C")] :=
  ⟨⟨by decide, by decide⟩,
    (rrf_fusion_spec [⟨("A"), 0⟩, ⟨("B"), 0⟩] [⟨("B"), 0⟩, ⟨("C"), 0⟩] (1/2) 60
      (by decide) (by decide)).2.2.2.2⟩

/-! ## Chunker — backend/app/services/chunking_service.py -/

/-- Python's whitespace test used by `str.strip()` (ASCII whitespace; the
repository only feeds it document text). -/
def isPySpace (c : Char) : Bool :=
  (c == ' ') || (c == '\t') || (c == '\n') || (c == '\r') || (c == '\x0B') || (c == '\x0C')

/-- Python `text.strip()` on a character list. -/
def pyStrip (l : List Char) : List Char :=
  ((l.dropWhile isPySpace).reverse.dropWhile isPySpace).reverse

/-- Python `text.rstrip(chars)`: remove trailing characters belonging to the
set `chars`; `rstrip("")` removes nothing. -/
def pyRstrip (l : List Char) (chars : List Char) : List Char :=
  (l.reverse.dropWhile (fun c => chars.contains c)).reverse

/-- Python `needle in haystack` (substring containment). -/
def hasSub (hay needle : List Char) : Bool :=
  (List.range (hay.length + 1)).any (fun i => needle.isPrefixOf (hay.drop i))

/-- Worker for Python `text.split(sep)` with a non-empty separator. -/
def pySplitGo (s0 : Char) (srest : List Char) (l : List Char) (acc : List Char) :
    List (List Char) :=
  match l with
  | [] => [acc.reverse]
  | c :: rest =>
    if (s0 :: srest).isPrefixOf (c :: rest) then
      acc.reverse :: pySplitGo s0 srest (rest.drop srest.length) []
    else
      pySplitGo s0 srest rest (c :: acc)
termination_by l.length
decreasing_by
· simp only [List.length_cons, List.length_drop]
  omega
· simp only [List.length_cons]
  omega

/-- Python `text.split(sep)`.  An empty `sep` raises in Python; the caller
(`_recursive_split`) never passes one. -/
def pySplitSep (sep : List Char) (l : List Char) : List (List Char) :=
  match sep with
  | [] => [l]
  | s0 :: srest => pySplitGo s0 srest l []

/-- The separator preference list of chunking_service.py, line 5. -/
def SEPARATORS : List (List Char) := [['\n', '\n'], ['\n'], ['.', ' '], [' '], []]

/-- Line 31-34: `separator = separators[-1]`, then the first separator
occurring in the text wins. -/
def findSeparator (text : List Char) (separators : List (List Char)) : List Char :=
  match separators.find? (fun sep => hasSub text sep) with
  | some sep => sep
  | none => (separators.getLast?).getD []

/-- The merge loop of `_recursive_split` (lines 43-69), including the final
buffer flush: greedily accumulate pieces into `current`; when adding the next
piece would exceed `size` (and the buffer is non-empty) emit the stripped
buffer and reseed with the trailing `overlap` characters. -/
def mergeSplits (separator : List Char) (size overlap : ℕ) :
    List (List Char) → List Char → List (List Char)
  | [], current =>
    if current = [] then []
    else
      let chunk := pyStrip (pyRstrip current separator)
      if chunk = [] then [] else [chunk]
  | split :: rest, current =>
    let piece := split ++ separator
    let test := current ++ piece
    if size < test.length ∧ current ≠ [] then
      let chunk := pyStrip (pyRstrip current separator)
      let newCur :=
        (if 0 < overlap ∧ overlap < current.length
         then current.drop (current.length - overlap) else []) ++ piece
      (if chunk = [] then [] else [chunk]) ++ mergeSplits separator size overlap rest newCur
    else
      mergeSplits separator size overlap rest test

/-- The tail of `_recursive_split` after the chosen separator is known
(chunking_service.py lines 36-85): split, merge into chunks, compute the
remaining separator list, and re-split any oversized chunk with the
continuation `recur`. -/
def recursive_split_body (recur : List Char → List (List Char) → List (List Char))
    (text : List Char) (separators : List (List Char)) (size overlap : ℕ)
    (separator : List Char) : List (List Char) :=
  let splits :=
    if separator = [] then text.map (fun c => [c]) else pySplitSep separator text
  let chunks := mergeSplits separator size overlap splits []
  let remaining :=
    if separators.any (fun s => decide (s = separator)) then
      separators.drop (separators.findIdx (fun s => decide (s = separator)) + 1)
    else
      match separators.getLast? with
      | some s => [s]
      | none => []
  if remaining = [] then chunks
  else
    (chunks.map (fun chunk =>
      if size < chunk.length then recur chunk remaining else [chunk])).flatten

/-- Shallow embedding of `_recursive_split` (chunking_service.py lines
19-85).  The recursion consumes at least one separator per level, so a fuel
of `separators.length + 1` (6 for `SEPARATORS`) makes the fuel-0 branch
unreachable; `fuel` only bounds that recursion depth. -/
def recursive_split : ℕ → List Char → List (List Char) → ℕ → ℕ → List (List Char)
  | 0, _, _, _, _ => []
  | fuel + 1, text, separators, size, overlap =>
    if text.length ≤ size then
      let stripped := pyStrip text
      if stripped = [] then [] else [stripped]
    else
      recursive_split_body
        (fun chunk remaining => recursive_split fuel chunk remaining size overlap)
        text separators size overlap (findSeparator text separators)

/-- The shape `_recursive_split` produces on a whitespace-free text at
size 10 / overlap 3 with the character separator: a window of 10 advancing
by 7. -/
def charChunks10 (t : List Char) : List (List Char) :=
  if h : t.length ≤ 10 then [t]
  else t.take 10 :: charChunks10 (t.drop 7)
termination_by t.length
decreasing_by
simp only [List.length_drop]
omega

lemma recursive_split_succ (fuel : ℕ) (text : List Char)
    (separators : List (List Char)) (size overlap : ℕ) :
    recursive_split (fuel + 1) text separators size overlap =
      if text.length ≤ size then
        (if pyStrip text = [] then [] else [pyStrip text])
      else
        recursive_split_body
          (fun chunk remaining => recursive_split fuel chunk remaining size overlap)
          text separators size overlap (findSeparator text separators) := rfl

lemma dropWhile_eq_self_of_false {p : Char → Bool} (l : List Char)
    (h : ∀ c ∈ l, p c = false) : l.dropWhile p = l := by
  cases l with
  | nil => rfl
  | cons a l =>
    rw [List.dropWhile_cons]
    simp [h a (List.mem_cons_self a l)]

lemma pyStrip_no_ws (l : List Char) (h : ∀ c ∈ l, isPySpace c = false) :
    pyStrip l = l := by
  unfold pyStrip
  rw [dropWhile_eq_self_of_false l h,
    dropWhile_eq_self_of_false l.reverse (fun c hc => h c (List.mem_reverse.mp hc)),
    List.reverse_reverse]

lemma pyRstrip_nil_chars (l : List Char) : pyRstrip l [] = l := by
  have h2 : l.reverse.dropWhile (fun c => (List.contains [] c : Bool)) = l.reverse :=
    dropWhile_eq_self_of_false l.reverse (fun c _ => rfl)
  unfold pyRstrip
  rw [h2, List.reverse_reverse]

lemma mergeSplits_char_run (cs : List Char) :
    ∀ cur : List Char, (∀ c ∈ cs, isPySpace c = false) →
    (∀ c ∈ cur, isPySpace c = false) →
    1 ≤ cur.length → cur.length ≤ 10 →
    mergeSplits [] 10 3 (cs.map (fun c => [c])) cur = charChunks10 (cur ++ cs) := by
  induction cs with
  | nil =>
    intro cur hcs hcur h1 h10
    have hne : cur ≠ [] := by
      intro h
      rw [h] at h1
      simp at h1
    simp only [List.map_nil, mergeSplits]
    rw [if_neg hne, pyRstrip_nil_chars, pyStrip_no_ws _ hcur, if_neg hne, List.append_nil,
      charChunks10, dif_pos h10]
  | cons c cs ih =>
    intro cur hcs hcur h1 h10
    have hne : cur ≠ [] := by
      intro h
      rw [h] at h1
      simp at h1
    have hcs' : ∀ x ∈ cs, isPySpace x = false := fun x hx => hcs x (by simp [hx])
    have hc : isPySpace c = false := hcs c (by simp)
    simp only [List.map_cons, mergeSplits, List.append_nil]
    by_cases hsz : cur.length = 10
    · have hcond : 10 < (cur ++ [c]).length ∧ cur ≠ [] := by
        refine ⟨?_, hne⟩
        simp [hsz]
      rw [if_pos hcond, pyRstrip_nil_chars, pyStrip_no_ws _ hcur, if_neg hne]
      have hov : 0 < 3 ∧ 3 < cur.length := by omega
      rw [if_pos hov]
      have hdropws : ∀ x ∈ cur.drop (cur.length - 3) ++ [c], isPySpace x = false := by
        intro x hx
        rcases List.mem_append.mp hx with hx' | hx'
        · exact hcur x (List.mem_of_mem_drop hx')
        · simp only [List.mem_singleton] at hx'
          subst hx'
          exact hc
      have hlen4 : (cur.drop (cur.length - 3) ++ [c]).length = 4 := by
        simp [List.length_append, List.length_drop]
        omega
      rw [ih (cur.drop (cur.length - 3) ++ [c]) hcs' hdropws (by omega) (by omega)]
      have hrw : (cur.drop (cur.length - 3) ++ [c]) ++ cs = cur.drop 7 ++ (c :: cs) := by
        rw [hsz]
        simp
      rw [hrw]
      conv_rhs => rw [charChunks10]
      have hbig : ¬ (cur ++ c :: cs).length ≤ 10 := by
        simp only [List.length_append, List.length_cons]
        omega
      rw [dif_neg hbig]
      have htake : (cur ++ c :: cs).take 10 = cur := by
        rw [← hsz]
        exact List.take_left cur (c :: cs)
      have hdrop : (cur ++ c :: cs).drop 7 = cur.drop 7 ++ c :: cs := by
        rw [List.drop_append_of_le_length (by omega)]
      rw [htake, hdrop]
      rfl
    · have hcond : ¬ (10 < (cur ++ [c]).length ∧ cur ≠ []) := by
        rintro ⟨ha, -⟩
        simp only [List.length_append, List.length_singleton] at ha
        omega
      rw [if_neg hcond]
      have hcurc : ∀ x ∈ cur ++ [c], isPySpace x = false := by
        intro x hx
        rcases List.mem_append.mp hx with hx' | hx'
        · exact hcur x hx'
        · simp only [List.mem_singleton] at hx'
          subst hx'
          exact hc
      rw [ih (cur ++ [c]) hcs' hcurc (by simp) (by simp; omega)]
      congr 1
      simp

lemma isPrefixOf_mem {l1 l2 : List Char} (h : l1.isPrefixOf l2 = true) :
    ∀ c ∈ l1, c ∈ l2 := by
  induction l1 generalizing l2 with
  | nil =>
    intro c hc
    simp at hc
  | cons a l1 ih =>
    cases l2 with
    | nil => simp [List.isPrefixOf] at h
    | cons b l2 =>
      simp only [List.isPrefixOf, Bool.and_eq_true, beq_iff_eq] at h
      intro c hc
      rcases List.mem_cons.mp hc with rfl | hc'
      · simp [h.1]
      · exact List.mem_cons_of_mem _ (ih h.2 c hc')

lemma hasSub_mem {hay needle : List Char} (h : hasSub hay needle = true) :
    ∀ c ∈ needle, c ∈ hay := by
  unfold hasSub at h
  obtain ⟨i, _, hpre⟩ := List.any_eq_true.mp h
  intro c hc
  exact List.mem_of_mem_drop (isPrefixOf_mem hpre c hc)

lemma hasSub_false_of_ws (t : List Char) (hws : ∀ c ∈ t, isPySpace c = false)
    (sep : List Char) (c : Char) (hc : c ∈ sep) (hwsc : isPySpace c = true) :
    hasSub t sep = false := by
  rw [← Bool.not_eq_true]
  intro hcon
  have hmem := hasSub_mem hcon c hc
  rw [hws c hmem] at hwsc
  exact Bool.false_ne_true hwsc

lemma hasSub_nil_needle (hay : List Char) : hasSub hay [] = true := by
  unfold hasSub
  refine List.any_eq_true.mpr ⟨0, ?_, ?_⟩
  · simp
  · simp [List.isPrefixOf]

lemma findSeparator_no_ws (t : List Char) (hws : ∀ c ∈ t, isPySpace c = false) :
    findSeparator t SEPARATORS = [] := by
  have h1 := hasSub_false_of_ws t hws ['\n', '\n'] '\n' (by simp) (by decide)
  have h2 := hasSub_false_of_ws t hws ['\n'] '\n' (by simp) (by decide)
  have h3 := hasSub_false_of_ws t hws ['.', ' '] ' ' (by simp) (by decide)
  have h4 := hasSub_false_of_ws t hws [' '] ' ' (by simp) (by decide)
  unfold findSeparator SEPARATORS
  simp [List.find?, h1, h2, h3, h4, hasSub_nil_needle]

lemma mergeSplits_char_run_top (t : List Char) (hws : ∀ c ∈ t, isPySpace c = false)
    (h1 : 1 ≤ t.length) :
    mergeSplits [] 10 3 (t.map (fun c => [c])) [] = charChunks10 t := by
  cases t with
  | nil => simp at h1
  | cons c0 rest =>
    have hcws : ∀ x ∈ [c0], isPySpace x = false := by
      intro x hx
      simp only [List.mem_singleton] at hx
      rw [hx]
      exact hws c0 (by simp)
    simp only [List.map_cons, mergeSplits, List.append_nil, List.nil_append]
    rw [if_neg (by simp)]
    rw [mergeSplits_char_run rest [c0] (fun x hx => hws x (by simp [hx])) hcws
      (by simp) (by simp)]
    simp

set_option maxHeartbeats 1000000 in
lemma charChunks10_25 (t : List Char) (hlen : t.length = 25) :
    charChunks10 t = [t.take 10, (t.drop 7).take 10, (t.drop 14).take 10, t.drop 21] := by
  rw [charChunks10, dif_neg (by omega)]
  rw [charChunks10, dif_neg (by simp only [List.length_drop]; omega)]
  rw [charChunks10, dif_neg (by simp only [List.length_drop]; omega)]
  rw [charChunks10, dif_pos (by simp only [List.length_drop]; omega)]
  rw [List.drop_drop, List.drop_drop]

/-- C8 (amended): for 25-character texts all of whose characters are
non-whitespace (which excludes every non-empty separator, since each contains
a space or a newline), `_recursive_split` with size 10 and overlap 3 yields
the four windows `t[0:10], t[7:17], t[14:24], t[21:25]`; every chunk is
non-empty and at most 10 characters; and each chunk after the first begins
with the last 3 characters of its predecessor's accumulated buffer (the
buffers being exactly those windows).  The original claim allowed whitespace
characters other than the separators (e.g. a tab), and `str.strip()` breaks
the begins-with property there — see the counterexample. -/
theorem recursive_split_25_no_ws (t : List Char)
    (hlen : t.length = 25) (hws : ∀ c ∈ t, isPySpace c = false) :
    recursive_split 6 t SEPARATORS 10 3 =
      [t.take 10, (t.drop 7).take 10, (t.drop 14).take 10, t.drop 21] ∧
    (∀ ch ∈ recursive_split 6 t SEPARATORS 10 3, ch ≠ [] ∧ ch.length ≤ 10) ∧
    ((t.drop 7).take 10).take 3 = (t.take 10).drop 7 ∧
    ((t.drop 14).take 10).take 3 = ((t.drop 7).take 10).drop 7 ∧
    (t.drop 21).take 3 = ((t.drop 14).take 10).drop 7 := by
  have hsep : findSeparator t SEPARATORS = [] := findSeparator_no_ws t hws
  have hrem : (if SEPARATORS.any (fun s => decide (s = ([] : List Char))) then
        SEPARATORS.drop (SEPARATORS.findIdx (fun s => decide (s = ([] : List Char))) + 1)
      else
        match SEPARATORS.getLast? with
        | some s => [s]
        | none => []) = [] := by decide
  have hmain : recursive_split 6 t SEPARATORS 10 3 =
      [t.take 10, (t.drop 7).take 10, (t.drop 14).take 10, t.drop 21] := by
    rw [show (6 : ℕ) = 5 + 1 from rfl, recursive_split_succ]
    rw [if_neg (by omega), hsep]
    simp only [recursive_split_body]
    rw [hrem]
    simp only [reduceIte]
    rw [mergeSplits_char_run_top t hws (by omega)]
    exact charChunks10_25 t hlen
  refine ⟨hmain, ?_, ?_, ?_, ?_⟩
  · intro ch hch
    rw [hmain] at hch
    have hln : ch.length ≠ 0 → ch ≠ [] := by
      intro h hnil
      rw [hnil] at h
      simp at h
    simp only [List.mem_cons, List.not_mem_nil, or_false] at hch
    rcases hch with rfl | rfl | rfl | rfl
    · exact ⟨hln (by simp [List.length_take, hlen]), by simp [List.length_take]⟩
    · exact ⟨hln (by simp [List.length_take, List.length_drop, hlen]),
        by simp [List.length_take]⟩
    · exact ⟨hln (by simp [List.length_take, List.length_drop, hlen]),
        by simp [List.length_take]⟩
    · exact ⟨hln (by simp [List.length_drop, hlen]), by simp [List.length_drop, hlen]⟩
  · simp [List.take_take, List.drop_take, List.drop_drop]
  · simp [List.take_take, List.drop_take, List.drop_drop]
  · simp [List.take_take, List.drop_take, List.drop_drop]

/-- The tab-containing 25-character input refuting C8 as stated. -/
def tabText : List Char := ("aaaaaaa\taaaaaaaaaaaaaaaaa").data

/-- Counterexample to C8 as stated: `tabText` has 25 characters and contains
none of the non-empty separators (no paragraph break, line break, sentence
terminator or space), yet the second chunk produced by `_recursive_split`
with size 10 / overlap 3 does not begin with the last 3 characters
`"\taa"` of its predecessor's accumulated buffer `tabText[0:10]`, because
`str.strip()` removes the leading tab when the buffer is emitted. -/
theorem recursive_split_overlap_claim_false :
    tabText.length = 25 ∧
    hasSub tabText ['\n', '\n'] = false ∧ hasSub tabText ['\n'] = false ∧
    hasSub tabText ['.', ' '] = false ∧ hasSub tabText [' '] = false ∧
    (recursive_split 6 tabText SEPARATORS 10 3).length = 4 ∧
    ((tabText.take 10).drop 7).isPrefixOf
        ((recursive_split 6 tabText SEPARATORS 10 3).getD 1 []) = false := by
  decide

/-- Witness for C8 (amended) at the all-letter input `replicate 25 'a'`. -/
theorem recursive_split_25_no_ws_witness :
    ((List.replicate 25 'a').length = 25 ∧
      ∀ c ∈ List.replicate 25 'a', isPySpace c = false) ∧
    recursive_split 6 (List.replicate 25 'a') SEPARATORS 10 3 =
      [(List.replicate 25 'a').take 10, ((List.replicate 25 'a').drop 7).take 10,
        ((List.replicate 25 'a').drop 14).take 10, (List.replicate 25 'a').drop 21] :=
  ⟨⟨by decide, by decide⟩,
    (recursive_split_25_no_ws (List.replicate 25 'a') (by decide) (by decide)).1⟩

/-! ## Structured-query (text-to-SQL) service — backend/app/services/sql_service.py -/

/-- Python `s.startswith(pre)`. -/
def strStartsWith (s pre : String) : Bool := pre.data.isPrefixOf s.data

/-- Python `needle in hay` on strings. -/
def hasSubStr (hay needle : String) : Bool := hasSub hay.data needle.data

/-- Python `s.strip()`. -/
def pyStripStr (s : String) : String := String.mk (pyStrip s.data)

/-- Python `s.rstrip(chars)`. -/
def pyRstripStr (s : String) (chars : List Char) : String := String.mk (pyRstrip s.data chars)

/-- Python `s.upper()` (ASCII; the SQL text the service handles is ASCII). -/
def pyUpperStr (s : String) : String := String.mk (s.data.map Char.toUpper)

/-- sql_service.py line 46.  The Python source stores these in a `set`,
whose iteration order is unspecified; only membership matters below. -/
def FORBIDDEN_KEYWORDS : List String :=
  ["INSERT", "UPDATE", "DELETE", "DROP", "ALTER", "CREATE", "TRUNCATE", "GRANT", "REVOKE"]

/-- Line 55: `query.strip().rstrip(";").strip()`. -/
def sqlStripped (query : String) : String :=
  pyStripStr (pyRstripStr (pyStripStr query) [';'])

/-- Shallow embedding of `SQLService._validate_query` (sql_service.py lines
53-65): require a `SELECT` beginning (case-insensitively, after stripping
whitespace and trailing semicolons), then reject any forbidden keyword that
occurs surrounded by spaces in the space-padded uppercased statement.
Returns the error message, or `none` when the query is accepted. -/
def validate_query (query : String) : Option String :=
  let stripped := sqlStripped query
  if strStartsWith (pyUpperStr stripped) ("SELECT") then
    let upper := pyUpperStr stripped
    match FORBIDDEN_KEYWORDS.find?
        (fun kw => hasSubStr (" " ++ upper ++ " ") (" " ++ kw ++ " ")) with
    | some kw => some ("Forbidden keyword: " ++ kw)
    | none => none
  else
    some ("Only SELECT queries are allowed.")

/-- Line 93-96: drop markdown code fences from the generated SQL. -/
def stripFences (raw : String) : String :=
  let sql := pyStripStr raw
  if strStartsWith sql ("```") then
    let lines := (pySplitSep ['\n'] sql.data).map (fun l => String.mk l)
    let kept := lines.filter (fun l => ! strStartsWith l ("```"))
    pyStripStr (String.mk (List.intercalate ['\n'] (kept.map (fun s => s.data))))
  else sql

/-- Oracles of `SQLService.execute`: SQL generation by the LLM (the prompt is
a fixed schema template around the question, so it is keyed by the question),
the Supabase RPC `execute_readonly_sql` returning rows, and `json.dumps` for
rendering rows.  An `Except.error` models a raised exception; both `httpx`
error branches of the source produce `"SQL execution failed: <text>"`. -/
structure SqlEnv where
  chat_completion : String → Except String String
  runSql : String → String → Except String (List String)
  dumpRows : List String → String

/-- Lines 130-140 of `SQLService.execute`: result formatting with the 50-row
truncation. -/
def formatRows (env : SqlEnv) (sql : String) (rows : List String) : String :=
  if rows = [] then "Query: " ++ sql ++ "\n\nNo results found."
  else
    let truncated := decide (50 < rows.length)
    let rows := rows.take 50
    "Query: " ++ sql ++ "\n\nResults (" ++ toString rows.length ++
      (if truncated then "+" else "") ++ " rows):\n" ++ env.dumpRows rows

/-- Shallow embedding of `SQLService.execute` (sql_service.py lines 67-140):
generate SQL, strip fences, validate, and only then call the execution
backend. -/
def sql_execute (env : SqlEnv) (question user_id : String) : String :=
  match env.chat_completion question with
  | .error e => "Failed to generate SQL query: " ++ e
  | .ok raw =>
    let sql := stripFences raw
    match validate_query sql with
    | some error => "Generated query was rejected: " ++ error ++ "\nQuery: " ++ sql
    | none =>
      match env.runSql sql user_id with
      | .error e => "SQL execution failed: " ++ e
      | .ok rows => formatRows env sql rows

/-- Counterexample to C9 as stated: `"SELECT 1;DROP TABLE X"` contains the
data-mutation keyword `DROP`, yet `_validate_query` accepts it (the keyword
check only fires when the keyword is surrounded by spaces, and here `DROP` is
preceded by `;`), and the statement is then sent to the execution backend:
with a backend oracle that reports being reached, `execute` returns that
backend's answer rather than a rejection. -/
theorem sql_validation_claim_false :
    validate_query ("SELECT 1;DROP TABLE X") = none ∧
    hasSubStr (pyUpperStr ("SELECT 1;DROP TABLE X")) ("DROP") = true ∧
    sql_execute
      { chat_completion := fun _ => .ok ("SELECT 1;DROP TABLE X"),
        runSql := fun _ _ => .error ("BACKEND REACHED"),
        dumpRows := fun _ => "" }
      ("q") ("u") = "SQL execution failed: BACKEND REACHED" := by
  decide

/-- C9 (amended): validation rejects any generated statement that does not
begin with `SELECT` (case-insensitively, after stripping whitespace and
trailing semicolons) and any statement in which a forbidden keyword occurs
surrounded by spaces in the space-padded uppercased statement (the source's
word-boundary test — a keyword adjacent to punctuation is not caught, see the
counterexample); a rejected statement is returned as a rejection message as
the tool result and the execution backend is never invoked (the result is
independent of the execution backend). -/
theorem sql_rejection_spec (env env' : SqlEnv) (question user_id raw err : String)
    (hgen : env.chat_completion question = .ok raw)
    (hgen' : env'.chat_completion question = .ok raw)
    (hval : validate_query (stripFences raw) = some err) :
    sql_execute env question user_id =
      "Generated query was rejected: " ++ err ++ "\nQuery: " ++ stripFences raw ∧
    sql_execute env question user_id = sql_execute env' question user_id ∧
    (∀ q, strStartsWith (pyUpperStr (sqlStripped q)) ("SELECT") = false →
      validate_query q = some ("Only SELECT queries are allowed.")) ∧
    (∀ q kw, kw ∈ FORBIDDEN_KEYWORDS →
      hasSubStr (" " ++ pyUpperStr (sqlStripped q) ++ " ") (" " ++ kw ++ " ") = true →
      (validate_query q).isSome = true) := by
  refine ⟨?_, ?_, ?_, ?_⟩
  · simp only [sql_execute, hgen, hval]
  · simp only [sql_execute, hgen, hgen', hval]
  · intro q hq
    simp only [validate_query, hq, Bool.false_eq_true, if_false]
  · intro q kw hkw hsub
    simp only [validate_query]
    by_cases hsel : strStartsWith (pyUpperStr (sqlStripped q)) ("SELECT") = true
    · simp only [hsel, if_true]
      have hfind : (FORBIDDEN_KEYWORDS.find?
          (fun kw => hasSubStr (" " ++ pyUpperStr (sqlStripped q) ++ " ")
            (" " ++ kw ++ " "))).isSome = true := by
        rw [List.find?_isSome]
        exact ⟨kw, hkw, hsub⟩
      cases hf : FORBIDDEN_KEYWORDS.find?
          (fun kw => hasSubStr (" " ++ pyUpperStr (sqlStripped q) ++ " ")
            (" " ++ kw ++ " ")) with
      | none => rw [hf] at hfind; simp at hfind
      | some kw2 => simp [hf]
    · simp only [Bool.not_eq_true] at hsel
      simp [hsel]

/-- Witness for C9 (amended): a generation oracle producing `"DROP TABLE X"`
is rejected with the SELECT-only message and the result does not depend on
the execution backend. -/
theorem sql_rejection_spec_witness :
    (SqlEnv.chat_completion
        { chat_completion := fun _ => .ok ("DROP TABLE X"),
          runSql := fun _ _ => .error ("A"), dumpRows := fun _ => "" } ("q") =
        .ok ("DROP TABLE X") ∧
      validate_query (stripFences ("DROP TABLE X")) =
        some ("Only SELECT queries are allowed.")) ∧
    sql_execute
      { chat_completion := fun _ => .ok ("DROP TABLE X"),
        runSql := fun _ _ => .error ("A"), dumpRows := fun _ => "" } ("q") ("u") =
      "Generated query was rejected: Only SELECT queries are allowed.\nQuery: DROP TABLE X" := by
  refine ⟨⟨rfl, by decide⟩, ?_⟩
  have h := sql_rejection_spec
    { chat_completion := fun _ => .ok ("DROP TABLE X"),
      runSql := fun _ _ => .error ("A"), dumpRows := fun _ => "" }
    { chat_completion := fun _ => .ok ("DROP TABLE X"),
      runSql := fun _ _ => .error ("A"), dumpRows := fun _ => "" }
    ("q") ("u") ("DROP TABLE X") ("Only SELECT queries are allowed.")
    rfl rfl (by decide)
  have h1 := h.1
  rw [h1]
  have : stripFences ("DROP TABLE X") = "DROP TABLE X" := by decide
  rw [this]
  rfl

/-! ## Reranker — backend/app/services/reranking_service.py -/

/-- The configuration fields (backend/app/config.py) read by the modelled
services. -/
structure Settings where
  query_rewrite_enabled : Bool
  rerank_enabled : Bool
  rerank_api_key : String
  rerank_top_n : ℕ
  image_similarity_min_ratio : ℚ
  image_max_results : ℕ
  tavily_api_key : String
deriving DecidableEq

/-- A chunk dict as handled by `RerankingService.rerank`: only `content`,
`similarity` and the added `rerank_score` key are touched; all other fields
are carried through unchanged by `.copy()` and are omitted. -/
structure RerankChunk where
  content : String
  similarity : ℚ
  rerank_score : Option ℚ
deriving DecidableEq

/-- One entry of the Cohere response's `results` array. -/
structure RerankResult where
  index : ℕ
  relevance_score : ℚ
deriving DecidableEq

/-- `top_n = top_n or settings.rerank_top_n` — Python `or` treats `None` and
`0` as falsy. -/
def rerankTopN (st : Settings) (top_n : Option ℕ) : ℕ :=
  match top_n with
  | some n => if n = 0 then st.rerank_top_n else n
  | none => st.rerank_top_n

/-- Shallow embedding of `RerankingService.rerank` (reranking_service.py
lines 12-72).  `backend` is the Cohere call (query, documents, top_n); an
`Except.error` models any exception raised inside the `try` block —
including an out-of-range `index` in the response, which the model expresses
as the `none` branch of the `mapM` lookup (in Python an `IndexError` caught
by the same handler). -/
def rerank (st : Settings)
    (backend : String → List String → ℕ → Except String (List RerankResult))
    (query : String) (chunks : List RerankChunk) (top_n : Option ℕ) :
    List RerankChunk :=
  if ¬ st.rerank_enabled ∨ st.rerank_api_key = "" then chunks
  else if chunks = [] then []
  else
    let documents := chunks.map (fun c => c.content)
    match backend query documents (min (rerankTopN st top_n) chunks.length) with
    | .error _ => chunks
    | .ok results =>
      match results.mapM (fun r => (chunks.get? r.index).map (fun c =>
          { c with rerank_score := some r.relevance_score,
                   similarity := r.relevance_score })) with
      | none => chunks
      | some reranked => reranked

/-- C7: `rerank` returns the candidate list unchanged (same elements, same
order) whenever reranking is disabled or no API key is configured, and
likewise returns the original candidates when the backend call fails for any
reason; the function is total — no exception propagates. -/
theorem rerank_passthrough (st : Settings)
    (backend : String → List String → ℕ → Except String (List RerankResult))
    (query : String) (chunks : List RerankChunk) (top_n : Option ℕ) :
    ((¬ st.rerank_enabled ∨ st.rerank_api_key = "") →
      rerank st backend query chunks top_n = chunks) ∧
    (∀ e, backend query (chunks.map (fun c => c.content))
        (min (rerankTopN st top_n) chunks.length) = .error e →
      rerank st backend query chunks top_n = chunks) := by
  constructor
  · intro h
    simp only [rerank, if_pos h]
  · intro e he
    by_cases hcfg : ¬ st.rerank_enabled ∨ st.rerank_api_key = ""
    · simp only [rerank, if_pos hcfg]
    · by_cases hnil : chunks = []
      · subst hnil
        simp [rerank, hcfg]
      · simp only [rerank, if_neg hcfg, if_neg hnil, he]

/-- The concrete configuration used by the C7 witness: reranking disabled. -/
def rerankWitnessSettings : Settings := ⟨true, false, "", 5, 3/5, 3, ""⟩

/-- Witness for C7: with reranking disabled, the concrete candidate list is
returned unchanged. -/
theorem rerank_passthrough_witness :
    (¬ rerankWitnessSettings.rerank_enabled = true ∨
      rerankWitnessSettings.rerank_api_key = "") ∧
    rerank rerankWitnessSettings (fun _ _ _ => .error ("down")) ("q")
      [⟨("c1"), 1, none⟩] none = [⟨("c1"), 1, none⟩] :=
  ⟨Or.inl (by simp [rerankWitnessSettings]),
    (rerank_passthrough rerankWitnessSettings (fun _ _ _ => .error ("down")) ("q")
      [⟨("c1"), 1, none⟩] none).1 (Or.inl (by simp [rerankWitnessSettings]))⟩

/-! ## Agent loop — backend/app/services/agent_service.py -/

def MAX_ROUNDS : ℕ := 5

def MAX_DOCUMENT_CHARS : ℕ := 80000

/-- A tool call inside the model's with-tools response:
`{id, name, arguments-as-text}`. -/
structure AgentToolCall where
  id : String
  name : String
  arguments : String
deriving DecidableEq

/-- A parsed JSON arguments object.  Values are modelled as strings: the
executors only read them via `.get` with a string default and hand them to
collaborators. -/
abbrev Args := List (String × String)

/-- Python `arguments.get(key, dflt)`. -/
def argGet (args : Args) (key dflt : String) : String :=
  match args.find? (fun p => decide (p.1 = key)) with
  | some p => p.2
  | none => dflt

/-- One entry of the LLM message history: plain role/content dicts, the
assistant tool-call message appended by `response_msg.to_dict()`, and the
tool-role messages `{role, tool_call_id, content}`. -/
inductive Msg where
  | chat (role : String) (content : String)
  | assistant (content : String) (tool_calls : List AgentToolCall)
  | tool (tool_call_id : String) (content : String)
deriving DecidableEq

/-- The model's non-streaming with-tools response message. -/
structure AssistantMsg where
  content : String
  tool_calls : List AgentToolCall
deriving DecidableEq

/-- `response_msg.to_dict()` (agent_service.py line 332). -/
def msgToDict (m : AssistantMsg) : Msg := Msg.assistant m.content m.tool_calls

/-- An entry of `AgentContext.sources` (agent_service.py lines 142-145). -/
structure SourceRef where
  filename : String
  similarity : ℚ
deriving DecidableEq

/-- An entry of `AgentContext.image_refs` (agent_service.py lines 172-180). -/
structure ImageRef where
  url : String
  alt : String
  label : String
  doc_id : String
  index : ℕ
  page : Option ℕ
  source : String
deriving DecidableEq

/-- The chunk-metadata keys read by `_execute_retrieve`. -/
structure ChunkMeta where
  chunk_type : Option String
  image_index : Option ℕ
  image_page : Option ℕ
deriving DecidableEq

/-- A retrieved chunk as consumed by `_execute_retrieve` after enrichment
(`filename` is set by `RetrievalService.retrieve`; `metadata` may be null). -/
structure Chunk where
  id : String
  document_id : String
  filename : String
  content : String
  similarity : ℚ
  metadata : Option ChunkMeta
deriving DecidableEq

/-- The events yielded by `run_agent_loop`: ToolCallEvent, ToolResultEvent,
SourcesEvent, ImagesEvent, SubAgentEvent and plain streamed text chunks. -/
inductive Event where
  | toolCall (name : String) (arguments : Args)
  | toolResult (name : String) (result : String)
  | sources (sources : List SourceRef)
  | images (images : List ImageRef)
  | subAgent (inner : Event)
  | text (chunk : String)
deriving DecidableEq

/-- `AgentContext` (agent_service.py lines 62-75).  The service handles
(`llm`, `embedding_service`, `supabase`) live in the oracle environment
`AgentEnv` instead. -/
structure AgentContext where
  user_id : String
  query : String
  chat_messages : List Msg
  system_prompt : String
  metadata_filter : Option (List (String × String))
  sources : List SourceRef
  image_refs : List ImageRef
deriving DecidableEq

/-- The language-model collaborator: `chat_completion_with_tools(messages,
system_prompt, tools)` and `chat_completion_stream(messages, system_prompt)`. -/
structure LLMOracle where
  withTools : List Msg → String → List String → AssistantMsg
  stream : List Msg → String → List String

/-- The collaborators of the agent loop.  `mergedChunks` abstracts
`_execute_retrieve` lines 107-136 (query selection, optional rewriting, the
per-query retrieval calls and the keep-max-similarity merge, sort and trim) —
all network-bound; an `Except.error` models an exception escaping that stage.
`getDocumentByFilename` returns the document id. -/
structure AgentEnv where
  llm : LLMOracle
  parseJson : String → Option Args
  mergedChunks : AgentContext → Args → Except String (List Chunk)
  webSearch : String → Except String String
  getDocumentByFilename : String → String → Except String (Option String)
  getChunksByDocument : String → Except String (List String)
  sql : SqlEnv

/-- `get_enabled_tools` (tools/definitions.py lines 105-112), reduced to the
tool names: `web_search` is appended only when a Tavily key is configured. -/
def get_enabled_tools (st : Settings) : List String :=
  ["retrieve_documents", "text_to_sql", "analyze_document"] ++
    (if st.tavily_api_key = "" then [] else ["web_search"])

/-- Python `"sep".join(parts)`. -/
def joinSep (sep : String) : List String → String
  | [] => ""
  | [x] => x
  | x :: rest => x ++ sep ++ joinSep sep rest

/-- Concatenation of the `context_str +=` loop. -/
def strConcat : List String → String
  | [] => ""
  | s :: rest => s ++ strConcat rest

/-- Python float formatting `f"{q:.2f}"` on the `ℚ` model: round-half-up to
two decimals (the similarity scores are non-negative; the exact IEEE
rounding of the binary float is not modelled and no claim depends on this
string). -/
def fmt2f (q : ℚ) : String :=
  let n : ℤ := (200 * q.num + (q.den : ℤ)).fdiv (2 * (q.den : ℤ))
  let f : ℤ := n % 100
  toString (n / 100) ++ "." ++ (if f < 10 then "0" ++ toString f else toString f)

/-- One part of `format_context` (retrieval_service.py line 164). -/
def formatPart (i : ℕ) (c : Chunk) : String :=
  "[Source " ++ toString i ++ ": " ++ c.filename ++ " (relevance: " ++
    fmt2f c.similarity ++ ")]\n" ++ c.content

/-- `enumerate(chunks, 1)` over `formatPart`. -/
def formatParts : ℕ → List Chunk → List String
  | _, [] => []
  | i, c :: rest => formatPart i c :: formatParts (i + 1) rest

/-- Shallow embedding of `format_context` (retrieval_service.py lines
154-166). -/
def format_context (chunks : List Chunk) : String :=
  if chunks = [] then "" else joinSep ("\n\n---\n\n") (formatParts 1 chunks)

/-- `chunk.get("metadata") or {}`. -/
def chunkMetaOf (c : Chunk) : ChunkMeta := c.metadata.getD ⟨none, none, none⟩

/-- `content.split("\n", 1)[1].strip()[:120]` when the content has more than
one line, else the empty string (agent_service.py lines 167-169). -/
def imageDescription (content : String) : String :=
  match (content.data.dropWhile (fun ch => ! (ch == '\n'))) with
  | [] => ""
  | _ :: after => String.mk ((pyStrip after).take 120)

/-- `chunks.map` into `ctx.sources` entries (agent_service.py lines
142-145): `filename` and `similarity` (`.get` defaults apply to absent dict
keys, which the enriched chunks always carry). -/
def mkSourceRef (c : Chunk) : SourceRef := ⟨c.filename, c.similarity⟩

/-- The image-collection loop of `_execute_retrieve` (agent_service.py
lines 151-182): eligible image-description chunks are deduplicated by
`(document_id, image_index)`, numbered `Figure N`, appended to
`ctx.image_refs`, and the loop breaks once `image_refs` (including entries
from earlier rounds) reaches `image_max_results`. -/
def collectImages (st : Settings) (min_image_similarity : ℚ) :
    List Chunk → List (String × ℕ) → ℕ → AgentContext → AgentContext
  | [], _, _, ctx => ctx
  | c :: rest, seen, figure_num, ctx =>
    if (chunkMetaOf c).chunk_type = some ("image_description") then
      if c.similarity < min_image_similarity then
        collectImages st min_image_similarity rest seen figure_num ctx
      else
        match (chunkMetaOf c).image_index with
        | some img_idx =>
          if c.document_id ≠ "" ∧ (c.document_id, img_idx) ∉ seen then
            let fig := figure_num + 1
            let label := "Figure " ++ toString fig
            let description := imageDescription c.content
            let ref : ImageRef :=
              ⟨"/api/documents/" ++ c.document_id ++ "/images/" ++ toString img_idx,
                (if description ≠ "" then label ++ ": " ++ description else label),
                label, c.document_id, img_idx, (chunkMetaOf c).image_page, c.filename⟩
            let ctx' := { ctx with image_refs := ctx.image_refs ++ [ref] }
            if st.image_max_results ≤ ctx'.image_refs.length then ctx'
            else collectImages st min_image_similarity rest
              ((c.document_id, img_idx) :: seen) fig ctx'
          else
            collectImages st min_image_similarity rest seen figure_num ctx
        | none => collectImages st min_image_similarity rest seen figure_num ctx
    else
      collectImages st min_image_similarity rest seen figure_num ctx

/-- `ref.get("page", "?")` rendered in the f-string: the key is always
present, and a null page prints as `None`. -/
def pageStr : Option ℕ → String
  | some n => toString n
  | none => "None"

/-- The `## Attached Figures` section appended to the context string
(agent_service.py lines 196-201). -/
def figuresSection (image_refs : List ImageRef) : String :=
  "\n\n## Attached Figures\n\n" ++
    strConcat (image_refs.map (fun ref =>
      "- **" ++ ref.label ++ "** — " ++ ref.source ++ ", p." ++ pageStr ref.page ++
        ": " ++ ref.alt ++ "\n")) ++
    "\nThese figures are displayed below your answer. Reference relevant ones by label (e.g. \x27see **Figure 1**\x27). Do NOT describe figures the user can already see — just refer to them. Do NOT include image URLs."

/-- Shallow embedding of `_execute_retrieve` from the merged chunk list on
(agent_service.py lines 138-202): replace `ctx.sources` with this result's
sources, append eligible images to `ctx.image_refs`, and return the context
string (plus the figures section when `image_refs` is non-empty). -/
def execute_retrieve_core (st : Settings) (chunks : List Chunk)
    (ctx : AgentContext) : String × AgentContext :=
  if chunks = [] then ("No relevant documents found.", ctx)
  else
    let ctx1 := { ctx with sources := chunks.map mkSourceRef }
    let top_similarity := ((chunks.head?).map (fun c => c.similarity)).getD 0
    let min_image_similarity := top_similarity * st.image_similarity_min_ratio
    let ctx2 := collectImages st min_image_similarity chunks [] 0 ctx1
    let context_str := format_context chunks
    let result :=
      if ctx2.image_refs = [] then context_str
      else context_str ++ figuresSection ctx2.image_refs
    (result, ctx2)

/-- The static executor table `TOOL_EXECUTORS` (agent_service.py lines
285-289), reduced to its keys. -/
def TOOL_EXECUTOR_NAMES : List String := ["retrieve_documents", "text_to_sql", "web_search"]

/-- Dispatch to a registered executor (agent_service.py lines 361-366):
`_execute_retrieve`, `_execute_text_to_sql` (via `SQLService.execute`), or
`_execute_web_search`.  An `Except.error` is an exception escaping the
executor, caught by the loop's handler. -/
def dispatchKnown (env : AgentEnv) (st : Settings) (ctx : AgentContext)
    (name : String) (args : Args) : Except String (String × AgentContext) :=
  if name = "retrieve_documents" then
    match env.mergedChunks ctx args with
    | .error e => .error e
    | .ok chunks => .ok (execute_retrieve_core st chunks ctx)
  else if name = "text_to_sql" then
    .ok (sql_execute env.sql (argGet args ("question") ("")) ctx.user_id, ctx)
  else
    match env.webSearch (argGet args ("query") ("")) with
    | .error e => .error e
    | .ok r => .ok (r, ctx)

/-- What `_execute_analyze_document` yields: wrapped `SubAgentEvent`s and the
final plain answer string. -/
inductive AnalyzeItem where
  | ev (e : Event)
  | fin (s : String)
deriving DecidableEq

/-- The wrapped events among the yields. -/
def itemEvents (items : List AnalyzeItem) : List Event :=
  items.filterMap (fun it => match it with | .ev e => some e | .fin _ => none)

/-- `result` after the `async for` over the analyze generator: each plain
string yield overwrites `result` (agent_service.py lines 346-353). -/
def lastFin (items : List AnalyzeItem) : String :=
  items.foldl (fun acc it => match it with | .fin s => s | .ev _ => acc) ""

/-- The wrapping filter of `_execute_analyze_document` (lines 273-278): tool
call, tool result and text events of the nested loop are wrapped as
`SubAgentEvent`; everything else (SourcesEvent, ImagesEvent, and SubAgentEvent
from deeper nesting) is dropped. -/
def wrapSubEvent : Event → Option AnalyzeItem
  | Event.toolCall n a => some (AnalyzeItem.ev (Event.subAgent (Event.toolCall n a)))
  | Event.toolResult n r => some (AnalyzeItem.ev (Event.subAgent (Event.toolResult n r)))
  | Event.text s => some (AnalyzeItem.ev (Event.subAgent (Event.text s)))
  | _ => none

/-- The text deltas of a nested run. -/
def textDelta : Event → Option String
  | Event.text s => some s
  | _ => none

/-- `SUB_AGENT_SYSTEM_PROMPT.format(document_text=...)` (agent_service.py
lines 221-227). -/
def sub_agent_system_prompt (document_text : String) : String :=
  "You are a document analysis assistant. You have the full text of a document in your context. Answer the user\x27s question about this document thoroughly and accurately.\n\nYou have access to the retrieve_documents tool to search within this document for specific sections if needed.\n\n## Document Text\n\n" ++ document_text

/-- Lines 254-256: assemble and truncate the full document text. -/
def analyzeFullText (contents : List String) : String :=
  let s := joinSep ("\n\n") contents
  if MAX_DOCUMENT_CHARS < s.data.length then
    String.mk (s.data.take MAX_DOCUMENT_CHARS) ++ "\n\n[... truncated ...]"
  else s

/-- Lines 259-269: the fresh sub-agent context. -/
def analyzeSubContext (ctx : AgentContext) (args : Args) (contents : List String) :
    AgentContext :=
  ⟨ctx.user_id, argGet args ("question") (""),
    [Msg.chat ("user") (argGet args ("question") (""))],
    sub_agent_system_prompt (analyzeFullText contents), none, [], []⟩

/-- Shallow embedding of `_execute_analyze_document` (agent_service.py lines
230-282) given the nested loop `runSub`: look the document up, assemble its
text, run the nested loop wrapping its events, and finally yield the
accumulated streamed answer.  An `Except.error` from a collaborator is the
exception that aborts the generator (second component). -/
def execute_analyze_document_body (env : AgentEnv) (runSub : AgentContext → List Event)
    (ctx : AgentContext) (args : Args) : List AnalyzeItem × Option String :=
  let filename := argGet args ("filename") ("")
  match env.getDocumentByFilename ctx.user_id filename with
  | .error e => ([], some e)
  | .ok none =>
    ([AnalyzeItem.fin ("Document \x27" ++ filename ++ "\x27 not found or not yet processed.")],
      none)
  | .ok (some docId) =>
    match env.getChunksByDocument docId with
    | .error e => ([], some e)
    | .ok contents =>
      if contents = [] then
        ([AnalyzeItem.fin ("No content found for document \x27" ++ filename ++ "\x27.")], none)
      else
        let subEvents := runSub (analyzeSubContext ctx args contents)
        let items := subEvents.filterMap wrapSubEvent
        let final_answer := String.join (subEvents.filterMap textDelta)
        (items ++ [AnalyzeItem.fin final_answer], none)

/-- The per-call body of the dispatch loop (agent_service.py lines 334-385),
parameterized by the analyze-document executor: emit the ToolCallEvent,
execute (special-casing `analyze_document`, then the registry, then the
unknown-tool fallback; exceptions become `"Tool execution failed: <e>"`),
emit the ToolResultEvent, and after a retrieval emit SourcesEvent/ImagesEvent
when the accumulators are non-empty. -/
def processCallArgs (analyze : AgentContext → Args → List AnalyzeItem × Option String)
    (env : AgentEnv) (st : Settings) (ctx : AgentContext)
    (fn_name : String) (fn_args : Args) : List Event × String × AgentContext :=
  let step : List Event × String × AgentContext :=
    if fn_name = "analyze_document" then
      let out := analyze ctx fn_args
      let result :=
        match out.2 with
        | some e => "Tool execution failed: " ++ e
        | none => lastFin out.1
      (itemEvents out.1, result, ctx)
    else if fn_name ∈ TOOL_EXECUTOR_NAMES then
      match dispatchKnown env st ctx fn_name fn_args with
      | .error e => ([], "Tool execution failed: " ++ e, ctx)
      | .ok (r, ctx') => ([], r, ctx')
    else
      ([], "Unknown tool: " ++ fn_name, ctx)
  let srcImg :=
    if fn_name = "retrieve_documents" then
      (if step.2.2.sources = [] then [] else [Event.sources step.2.2.sources]) ++
        (if step.2.2.image_refs = [] then [] else [Event.images step.2.2.image_refs])
    else []
  (Event.toolCall fn_name fn_args :: step.1 ++ Event.toolResult fn_name step.2.1 :: srcImg,
    step.2.1, step.2.2)

/-- Lines 336-339: `json.loads` of the arguments text, `{}` on a parse
error, then the per-call body. -/
def processCall (analyze : AgentContext → Args → List AnalyzeItem × Option String)
    (env : AgentEnv) (st : Settings) (ctx : AgentContext) (call : AgentToolCall) :
    List Event × String × AgentContext :=
  processCallArgs analyze env st ctx call.name ((env.parseJson call.arguments).getD [])

/-- The `for tool_call in response_msg.tool_calls` loop, threading the
context and appending one tool-role message per call (lines 334-385). -/
def processCalls (analyze : AgentContext → Args → List AnalyzeItem × Option String)
    (env : AgentEnv) (st : Settings) :
    List AgentToolCall → AgentContext → List Msg → List Event × AgentContext × List Msg
  | [], ctx, messages => ([], ctx, messages)
  | call :: rest, ctx, messages =>
    let out := processCall analyze env st ctx call
    let messages' := messages ++ [Msg.tool call.id out.2.1]
    let next := processCalls analyze env st rest out.2.2 messages'
    (out.1 ++ next.1, next.2)

/-- The round loop of `run_agent_loop` (lines 310-392): with rounds left,
ask the model; no tool calls → stream the final answer with the same
messages; otherwise append the assistant message, execute the calls, and
recurse.  With no round left (`rounds = 0`), the round-exhaustion fallback
streams with the accumulated history. -/
def loopRounds (analyze : AgentContext → Args → List AnalyzeItem × Option String)
    (env : AgentEnv) (st : Settings) :
    ℕ → AgentContext → List Msg → List Event
  | 0, ctx, messages => (env.llm.stream messages ctx.system_prompt).map Event.text
  | rounds + 1, ctx, messages =>
    let response := env.llm.withTools messages ctx.system_prompt (get_enabled_tools st)
    if response.tool_calls = [] then
      (env.llm.stream messages ctx.system_prompt).map Event.text
    else
      let messages1 := messages ++ [msgToDict response]
      let out := processCalls analyze env st response.tool_calls ctx messages1
      out.1 ++ loopRounds analyze env st rounds out.2.1 out.2.2

/-- The analyze-document executor at bounded nesting depth: depth `nest + 1`
runs the nested agent loop at depth `nest`.  Python has no such bound (the
spec flags the unbounded recursion); every claim below holds for every
depth, and the depth-0 executor is a modelling artifact that yields
nothing. -/
def execute_analyze_document (env : AgentEnv) (st : Settings) :
    ℕ → AgentContext → Args → List AnalyzeItem × Option String
  | 0, _, _ => ([], none)
  | nest + 1, ctx, args =>
    execute_analyze_document_body env
      (fun sub_ctx =>
        loopRounds (execute_analyze_document env st nest) env st MAX_ROUNDS sub_ctx
          sub_ctx.chat_messages)
      ctx args

/-- Shallow embedding of `run_agent_loop` (agent_service.py lines 292-392)
at nesting budget `nest`. -/
def run_agent_loop (env : AgentEnv) (st : Settings) (nest : ℕ) (ctx : AgentContext) :
    List Event :=
  loopRounds (execute_analyze_document env st nest) env st MAX_ROUNDS ctx
    ctx.chat_messages

def isToolCall : Event → Bool
  | Event.toolCall _ _ => true
  | _ => false

def isToolResult : Event → Bool
  | Event.toolResult _ _ => true
  | _ => false

def isSources : Event → Bool
  | Event.sources _ => true
  | _ => false

def isImages : Event → Bool
  | Event.images _ => true
  | _ => false

def isSubAgent : Event → Bool
  | Event.subAgent _ => true
  | _ => false

/-- Scanner for the call/result alternation protocol: between a
`ToolCallEvent` and its matching `ToolResultEvent` (same tool name) no other
`ToolCallEvent` or `ToolResultEvent` may occur, and results never occur
without a pending call.  Returns the final pending state, or `none` on a
violation. -/
def altRun : Option String → List Event → Option (Option String)
  | st, [] => some st
  | st, e :: rest =>
    match e, st with
    | Event.toolCall n _, none => altRun (some n) rest
    | Event.toolCall _ _, some _ => none
    | Event.toolResult n _, some m => if n = m then altRun none rest else none
    | Event.toolResult _ _, none => none
    | _, st => altRun st rest

/-- Scanner state for the sources/images adjacency protocol. -/
inductive AdjSt where
  | normal
  | afterRetTR
  | afterSources
deriving DecidableEq

/-- Scanner for the sources/images adjacency protocol: a `SourcesEvent` may
occur only immediately after a `retrieve_documents` `ToolResultEvent`; an
`ImagesEvent` only immediately after such a result or after the
`SourcesEvent` that follows it; at most one of each per retrieval result. -/
def adjRun : AdjSt → List Event → Option AdjSt
  | st, [] => some st
  | st, e :: rest =>
    match e, st with
    | Event.sources _, AdjSt.afterRetTR => adjRun AdjSt.afterSources rest
    | Event.sources _, _ => none
    | Event.images _, AdjSt.afterRetTR => adjRun AdjSt.normal rest
    | Event.images _, AdjSt.afterSources => adjRun AdjSt.normal rest
    | Event.images _, _ => none
    | Event.toolResult n _, _ =>
      if n = "retrieve_documents" then adjRun AdjSt.afterRetTR rest
      else adjRun AdjSt.normal rest
    | _, _ => adjRun AdjSt.normal rest

lemma altRun_append (l1 l2 : List Event) (s : Option String) :
    altRun s (l1 ++ l2) =
      match altRun s l1 with
      | none => none
      | some s' => altRun s' l2 := by
  induction l1 generalizing s with
  | nil => simp [altRun]
  | cons e rest ih =>
    cases e with
    | toolCall n a =>
      cases s with
      | none => simpa [altRun] using ih (some n)
      | some m => simp [altRun]
    | toolResult n r =>
      cases s with
      | none => simp [altRun]
      | some m =>
        by_cases h : n = m
        · simpa [altRun, h] using ih none
        · simp [altRun, h]
    | sources x => simpa [altRun] using ih s
    | images x => simpa [altRun] using ih s
    | subAgent x => simpa [altRun] using ih s
    | text x => simpa [altRun] using ih s

lemma adjRun_append (l1 l2 : List Event) (s : AdjSt) :
    adjRun s (l1 ++ l2) =
      match adjRun s l1 with
      | none => none
      | some s' => adjRun s' l2 := by
  induction l1 generalizing s with
  | nil => simp [adjRun]
  | cons e rest ih =>
    cases e with
    | toolCall n a => simpa [adjRun] using ih AdjSt.normal
    | toolResult n r =>
      by_cases h : n = "retrieve_documents"
      · simpa [adjRun, h] using ih AdjSt.afterRetTR
      · simpa [adjRun, h] using ih AdjSt.normal
    | sources x =>
      cases s with
      | afterRetTR => simpa [adjRun] using ih AdjSt.afterSources
      | normal => simp [adjRun]
      | afterSources => simp [adjRun]
    | images x =>
      cases s with
      | afterRetTR => simpa [adjRun] using ih AdjSt.normal
      | afterSources => simpa [adjRun] using ih AdjSt.normal
      | normal => simp [adjRun]
    | subAgent x => simpa [adjRun] using ih AdjSt.normal
    | text x => simpa [adjRun] using ih AdjSt.normal

lemma altRun_subAgent_skip (mid : List Event) (s : Option String)
    (hmid : ∀ e ∈ mid, isSubAgent e = true) : altRun s mid = some s := by
  induction mid with
  | nil => simp [altRun]
  | cons e rest ih =>
    have he := hmid e (by simp)
    cases e <;> simp [isSubAgent] at he
    simpa [altRun] using ih (fun x hx => hmid x (by simp [hx]))

lemma altRun_texts (strs : List String) (s : Option String) :
    altRun s (strs.map Event.text) = some s := by
  induction strs with
  | nil => simp [altRun]
  | cons x rest ih => simpa [altRun] using ih

lemma adjRun_texts (strs : List String) (s : AdjSt) :
    ∃ s', adjRun s (strs.map Event.text) = some s' := by
  cases strs with
  | nil => exact ⟨s, by simp [adjRun]⟩
  | cons x rest =>
    refine ⟨AdjSt.normal, ?_⟩
    simp only [List.map_cons, adjRun]
    induction rest with
    | nil => simp [adjRun]
    | cons y r ih => simpa [adjRun] using ih

lemma wrapped_items_subAgent (l : List Event) :
    ∀ e ∈ itemEvents (l.filterMap wrapSubEvent), isSubAgent e = true := by
  intro e he
  unfold itemEvents at he
  obtain ⟨it, hit, hite⟩ := List.mem_filterMap.mp he
  obtain ⟨ev0, _, hwrap⟩ := List.mem_filterMap.mp hit
  cases ev0 <;> simp [wrapSubEvent] at hwrap <;>
    (subst hwrap; simp at hite; subst hite; rfl)

lemma analyze_items_subAgent (env : AgentEnv) (st : Settings) (n : ℕ)
    (ctx : AgentContext) (args : Args) :
    ∀ e ∈ itemEvents (execute_analyze_document env st n ctx args).1,
      isSubAgent e = true := by
  cases n with
  | zero =>
    intro e he
    simp [execute_analyze_document, itemEvents] at he
  | succ n =>
    intro e he
    simp only [execute_analyze_document, execute_analyze_document_body] at he
    split at he
    · simp [itemEvents] at he
    · simp [itemEvents] at he
    · split at he
      · simp [itemEvents] at he
      · split at he
        · simp [itemEvents] at he
        · unfold itemEvents at he
          rw [List.filterMap_append] at he
          rcases List.mem_append.mp he with he' | he'
          · exact wrapped_items_subAgent _ e he'
          · simp at he'

/-- Shape of one dispatched tool call's event block: the ToolCallEvent, then
only SubAgentEvents, then exactly one ToolResultEvent carrying the call's
result, then an optional SourcesEvent followed by an optional ImagesEvent —
and those only for `retrieve_documents`. -/
lemma processCallArgs_shape
    (analyze : AgentContext → Args → List AnalyzeItem × Option String)
    (env : AgentEnv) (st : Settings) (ctx : AgentContext)
    (fn_name : String) (fn_args : Args)
    (hsub : ∀ e ∈ itemEvents (analyze ctx fn_args).1, isSubAgent e = true) :
    ∃ mid s i,
      (processCallArgs analyze env st ctx fn_name fn_args).1 =
        Event.toolCall fn_name fn_args :: mid ++
          Event.toolResult fn_name
            (processCallArgs analyze env st ctx fn_name fn_args).2.1 :: (s ++ i) ∧
      (∀ e ∈ mid, isSubAgent e = true) ∧
      (s = [] ∨ ∃ ss, s = [Event.sources ss]) ∧
      (i = [] ∨ ∃ ii, i = [Event.images ii]) ∧
      (fn_name ≠ "retrieve_documents" → s = [] ∧ i = []) := by
  by_cases h1 : fn_name = "analyze_document"
  · refine ⟨itemEvents (analyze ctx fn_args).1, [], [], ?_, hsub, Or.inl rfl, Or.inl rfl,
      fun _ => ⟨rfl, rfl⟩⟩
    subst h1
    simp [processCallArgs]
  · by_cases h2 : fn_name ∈ TOOL_EXECUTOR_NAMES
    · by_cases h3 : fn_name = "retrieve_documents"
      · subst h3
        refine ⟨[],
          (if (processCallArgs analyze env st ctx ("retrieve_documents") fn_args).2.2.sources = []
            then []
            else [Event.sources
              (processCallArgs analyze env st ctx ("retrieve_documents") fn_args).2.2.sources]),
          (if (processCallArgs analyze env st ctx ("retrieve_documents") fn_args).2.2.image_refs = []
            then []
            else [Event.images
              (processCallArgs analyze env st ctx ("retrieve_documents") fn_args).2.2.image_refs]),
          ?_, by simp, ?_, ?_, ?_⟩
        · simp only [processCallArgs, h1, Bool.false_eq_true, if_false, if_pos h2, if_pos rfl]
          rcases hdk : dispatchKnown env st ctx ("retrieve_documents") fn_args with e | rc <;>
            simp [hdk]
        · split
          · exact Or.inl rfl
          · exact Or.inr ⟨_, rfl⟩
        · split
          · exact Or.inl rfl
          · exact Or.inr ⟨_, rfl⟩
        · intro hne
          exact absurd rfl hne
      · refine ⟨[], [], [], ?_, by simp, Or.inl rfl, Or.inl rfl, fun _ => ⟨rfl, rfl⟩⟩
        simp only [processCallArgs, h1, Bool.false_eq_true, if_false, if_pos h2, if_neg h3]
        rcases hdk : dispatchKnown env st ctx fn_name fn_args with e | rc <;> simp [hdk]
    · refine ⟨[], [], [], ?_, by simp, Or.inl rfl, Or.inl rfl, fun _ => ⟨rfl, rfl⟩⟩
      have h3 : fn_name ≠ "retrieve_documents" := by
        intro hc
        rw [hc] at h2
        simp [TOOL_EXECUTOR_NAMES] at h2
      simp only [processCallArgs, h1, Bool.false_eq_true, if_false, if_neg h2, if_neg h3]
      simp

lemma processCallArgs_altRun
    (analyze : AgentContext → Args → List AnalyzeItem × Option String)
    (env : AgentEnv) (st : Settings) (ctx : AgentContext)
    (fn_name : String) (fn_args : Args)
    (hsub : ∀ e ∈ itemEvents (analyze ctx fn_args).1, isSubAgent e = true) :
    altRun none (processCallArgs analyze env st ctx fn_name fn_args).1 = some none := by
  obtain ⟨mid, s, i, hev, hmid, hs, hi, -⟩ :=
    processCallArgs_shape analyze env st ctx fn_name fn_args hsub
  rw [hev]
  simp only [altRun]
  simp only [List.append_eq]
  rw [altRun_append, altRun_subAgent_skip mid _ hmid]
  simp only [altRun, if_pos rfl]
  rcases hs with rfl | ⟨ss, rfl⟩ <;> rcases hi with rfl | ⟨ii, rfl⟩ <;> simp [altRun]

lemma processCallArgs_adjRun
    (analyze : AgentContext → Args → List AnalyzeItem × Option String)
    (env : AgentEnv) (st : Settings) (ctx : AgentContext)
    (fn_name : String) (fn_args : Args) (st0 : AdjSt)
    (hsub : ∀ e ∈ itemEvents (analyze ctx fn_args).1, isSubAgent e = true) :
    ∃ s', adjRun st0 (processCallArgs analyze env st ctx fn_name fn_args).1 = some s' := by
  obtain ⟨mid, s, i, hev, hmid, hs, hi, hnr⟩ :=
    processCallArgs_shape analyze env st ctx fn_name fn_args hsub
  rw [hev]
  simp only [adjRun]
  simp only [List.append_eq]
  rw [adjRun_append]
  have hmid' : adjRun AdjSt.normal mid = some AdjSt.normal := by
    clear hev
    induction mid with
    | nil => simp [adjRun]
    | cons e rest ih =>
      have he := hmid e (by simp)
      cases e <;> simp [isSubAgent] at he
      simpa [adjRun] using ih (fun x hx => hmid x (by simp [hx]))
  rw [hmid']
  simp only [adjRun]
  by_cases hr : fn_name = "retrieve_documents"
  · simp only [if_pos hr]
    rcases hs with rfl | ⟨ss, rfl⟩ <;> rcases hi with rfl | ⟨ii, rfl⟩
    · exact ⟨AdjSt.afterRetTR, by simp [adjRun]⟩
    · exact ⟨AdjSt.normal, by simp [adjRun]⟩
    · exact ⟨AdjSt.afterSources, by simp [adjRun]⟩
    · exact ⟨AdjSt.normal, by simp [adjRun]⟩
  · obtain ⟨rfl, rfl⟩ := hnr hr
    simp only [if_neg hr]
    exact ⟨AdjSt.normal, by simp [adjRun]⟩

lemma processCalls_altRun (env : AgentEnv) (st : Settings)
    (analyze : AgentContext → Args → List AnalyzeItem × Option String)
    (hsub : ∀ ctx args, ∀ e ∈ itemEvents (analyze ctx args).1, isSubAgent e = true)
    (calls : List AgentToolCall) :
    ∀ ctx messages,
      altRun none (processCalls analyze env st calls ctx messages).1 = some none := by
  induction calls with
  | nil => intro ctx messages; simp [processCalls, altRun]
  | cons call rest ih =>
    intro ctx messages
    simp only [processCalls]
    rw [altRun_append]
    rw [show processCall analyze env st ctx call =
      processCallArgs analyze env st ctx call.name ((env.parseJson call.arguments).getD [])
      from rfl]
    rw [processCallArgs_altRun analyze env st ctx call.name _ (hsub ctx _)]
    exact ih _ _

lemma processCalls_adjRun (env : AgentEnv) (st : Settings)
    (analyze : AgentContext → Args → List AnalyzeItem × Option String)
    (hsub : ∀ ctx args, ∀ e ∈ itemEvents (analyze ctx args).1, isSubAgent e = true)
    (calls : List AgentToolCall) :
    ∀ ctx messages st0,
      ∃ s', adjRun st0 (processCalls analyze env st calls ctx messages).1 = some s' := by
  induction calls with
  | nil => intro ctx messages st0; exact ⟨st0, by simp [processCalls, adjRun]⟩
  | cons call rest ih =>
    intro ctx messages st0
    simp only [processCalls]
    rw [adjRun_append]
    rw [show processCall analyze env st ctx call =
      processCallArgs analyze env st ctx call.name ((env.parseJson call.arguments).getD [])
      from rfl]
    obtain ⟨s1, hs1⟩ :=
      processCallArgs_adjRun analyze env st ctx call.name _ st0 (hsub ctx _)
    rw [hs1]
    exact ih _ _ _

lemma loopRounds_altRun (env : AgentEnv) (st : Settings)
    (analyze : AgentContext → Args → List AnalyzeItem × Option String)
    (hsub : ∀ ctx args, ∀ e ∈ itemEvents (analyze ctx args).1, isSubAgent e = true)
    (rounds : ℕ) :
    ∀ ctx messages,
      altRun none (loopRounds analyze env st rounds ctx messages) = some none := by
  induction rounds with
  | zero => intro ctx messages; exact altRun_texts _ _
  | succ r ih =>
    intro ctx messages
    simp only [loopRounds]
    split
    · exact altRun_texts _ _
    · rw [altRun_append, processCalls_altRun env st analyze hsub]
      exact ih _ _

lemma loopRounds_adjRun (env : AgentEnv) (st : Settings)
    (analyze : AgentContext → Args → List AnalyzeItem × Option String)
    (hsub : ∀ ctx args, ∀ e ∈ itemEvents (analyze ctx args).1, isSubAgent e = true)
    (rounds : ℕ) :
    ∀ ctx messages st0,
      ∃ s', adjRun st0 (loopRounds analyze env st rounds ctx messages) = some s' := by
  induction rounds with
  | zero => intro ctx messages st0; exact adjRun_texts _ _
  | succ r ih =>
    intro ctx messages st0
    simp only [loopRounds]
    split
    · exact adjRun_texts _ _
    · rw [adjRun_append]
      obtain ⟨s1, hs1⟩ := processCalls_adjRun env st analyze hsub _ _ _ st0
      rw [hs1]
      exact ih _ _ _

/-- C4 (amended): in every event stream of one agent-loop invocation, each
`ToolCallEvent` is followed, before any other `ToolCallEvent`, by exactly one
`ToolResultEvent` of the same tool name (`altRun` accepts the stream and ends
with no pending call), and `SourcesEvent`/`ImagesEvent` occur only
immediately after a `retrieve_documents` `ToolResultEvent` (the `ImagesEvent`
possibly after the `SourcesEvent` that follows it), at most one of each per
retrieval result.  The original per-round at-most-once bound fails — see the
counterexample. -/
theorem agent_event_protocol (env : AgentEnv) (st : Settings) (nest : ℕ)
    (ctx : AgentContext) :
    altRun none (run_agent_loop env st nest ctx) = some none ∧
    (adjRun AdjSt.normal (run_agent_loop env st nest ctx)).isSome = true := by
  constructor
  · exact loopRounds_altRun env st _
      (fun c a => analyze_items_subAgent env st nest c a) MAX_ROUNDS _ _
  · obtain ⟨s', hs'⟩ := loopRounds_adjRun env st _
      (fun c a => analyze_items_subAgent env st nest c a) MAX_ROUNDS
      ctx ctx.chat_messages AdjSt.normal
    rw [run_agent_loop, hs']
    rfl

/-- The environment refuting the per-round bound of C4: the model requests
`retrieve_documents` twice in every round, and every retrieval finds one
chunk. -/
def envC4 : AgentEnv :=
  ⟨⟨fun _ _ _ => ⟨"", [⟨"1", "retrieve_documents", "x"⟩, ⟨"2", "retrieve_documents", "x"⟩]⟩,
      fun _ _ => []⟩,
    fun _ => some [],
    fun _ _ => .ok [⟨"c1", "d1", "f.pdf", "t", 1, none⟩],
    fun _ => .ok "",
    fun _ _ => .ok none,
    fun _ => .ok [],
    ⟨fun _ => .ok "", fun _ _ => .ok [], fun _ => ""⟩⟩

def stC4 : Settings := ⟨true, false, "", 5, 1, 3, ""⟩

def ctxC4 : AgentContext := ⟨"u", "q", [Msg.chat ("user") ("q")], "sys", none, [], []⟩

/-- Counterexample to C4 as stated: with two retrieval calls per round the
loop emits one `SourcesEvent` after each retrieval result — ten in a single
invocation, although the loop executes at most `MAX_ROUNDS = 5` rounds, so
"at most one SourcesEvent per round" would allow at most five. -/
theorem sources_once_per_round_claim_false :
    MAX_ROUNDS = 5 ∧
    (run_agent_loop envC4 stC4 0 ctxC4).countP isSources = 10 := by
  decide

lemma countP_toolResult_zero_of_subAgent (l : List Event)
    (h : ∀ e ∈ l, isSubAgent e = true) : l.countP isToolResult = 0 := by
  induction l with
  | nil => rfl
  | cons e rest ih =>
    have he := h e (by simp)
    cases e <;> simp [isSubAgent] at he
    simp [List.countP_cons, isToolResult,
      ih (fun x hx => h x (by simp [hx]))]

/-- C10: a tool call whose arguments string fails JSON parsing is neither
skipped nor an error: the loop processes it exactly as a call with the
empty arguments map — the ToolCallEvent carries the empty map, the tool is
dispatched on the empty map, and a matching ToolResultEvent follows, with
only wrapped sub-agent events in between. -/
theorem malformed_args_empty_map (env : AgentEnv) (st : Settings) (nest : ℕ)
    (ctx : AgentContext) (call : AgentToolCall)
    (h : env.parseJson call.arguments = none) :
    processCall (execute_analyze_document env st nest) env st ctx call =
      processCallArgs (execute_analyze_document env st nest) env st ctx call.name [] ∧
    ∃ mid rest,
      (processCall (execute_analyze_document env st nest) env st ctx call).1 =
        Event.toolCall call.name [] :: mid ++
          Event.toolResult call.name
            (processCall (execute_analyze_document env st nest) env st ctx call).2.1 ::
            rest ∧
      ∀ e ∈ mid, isSubAgent e = true := by
  have heq : processCall (execute_analyze_document env st nest) env st ctx call =
      processCallArgs (execute_analyze_document env st nest) env st ctx call.name [] := by
    simp [processCall, h]
  refine ⟨heq, ?_⟩
  obtain ⟨mid, s, i, hshape, hmid, _, _, _⟩ :=
    processCallArgs_shape (execute_analyze_document env st nest) env st ctx call.name []
      (analyze_items_subAgent env st nest ctx [])
  exact ⟨mid, s ++ i, by rw [heq]; exact hshape, hmid⟩

def envC10 : AgentEnv :=
  ⟨⟨fun _ _ _ => ⟨"", []⟩, fun _ _ => []⟩,
    fun _ => none,
    fun _ _ => .ok [],
    fun _ => .ok "",
    fun _ _ => .ok none,
    fun _ => .ok [],
    ⟨fun _ => .ok "", fun _ _ => .ok [], fun _ => ""⟩⟩

def stC10 : Settings := ⟨true, false, "", 5, 1, 3, ""⟩

def ctxC10 : AgentContext := ⟨"u", "q", [Msg.chat ("user") ("q")], "sys", none, [], []⟩

def callC10 : AgentToolCall := ⟨"1", "noop", "not json"⟩

/-- Witness for C10 at a concrete malformed call. -/
theorem malformed_args_empty_map_witness :
    envC10.parseJson callC10.arguments = none ∧
    (processCall (execute_analyze_document envC10 stC10 0) envC10 stC10 ctxC10 callC10 =
      processCallArgs (execute_analyze_document envC10 stC10 0) envC10 stC10 ctxC10
        callC10.name [] ∧
    ∃ mid rest,
      (processCall (execute_analyze_document envC10 stC10 0) envC10 stC10 ctxC10 callC10).1 =
        Event.toolCall callC10.name [] :: mid ++
          Event.toolResult callC10.name
            (processCall (execute_analyze_document envC10 stC10 0) envC10 stC10 ctxC10
              callC10).2.1 :: rest ∧
      ∀ e ∈ mid, isSubAgent e = true) :=
  ⟨rfl, malformed_args_empty_map envC10 stC10 0 ctxC10 callC10 rfl⟩

/-- C3: every dispatched tool call produces exactly one ToolResultEvent
(wrapped sub-agent results do not count), which carries `"Unknown tool:
<name>"` for an unregistered name and `"Tool execution failed: <error>"`
when the executor (registry or document analysis) fails; the per-call body
is total, so no executor failure escapes the loop. -/
theorem tool_dispatch_error_handling (env : AgentEnv) (st : Settings) (nest : ℕ)
    (ctx : AgentContext) (fn_name : String) (fn_args : Args) :
    ((processCallArgs (execute_analyze_document env st nest) env st ctx
        fn_name fn_args).1.countP isToolResult = 1) ∧
    (Event.toolResult fn_name
        (processCallArgs (execute_analyze_document env st nest) env st ctx
          fn_name fn_args).2.1 ∈
      (processCallArgs (execute_analyze_document env st nest) env st ctx
        fn_name fn_args).1) ∧
    (fn_name ≠ "analyze_document" → fn_name ∉ TOOL_EXECUTOR_NAMES →
      (processCallArgs (execute_analyze_document env st nest) env st ctx
        fn_name fn_args).2.1 = "Unknown tool: " ++ fn_name) ∧
    (∀ e, fn_name ∈ TOOL_EXECUTOR_NAMES →
      dispatchKnown env st ctx fn_name fn_args = .error e →
      (processCallArgs (execute_analyze_document env st nest) env st ctx
        fn_name fn_args).2.1 = "Tool execution failed: " ++ e) ∧
    (∀ e, fn_name = "analyze_document" →
      (execute_analyze_document env st nest ctx fn_args).2 = some e →
      (processCallArgs (execute_analyze_document env st nest) env st ctx
        fn_name fn_args).2.1 = "Tool execution failed: " ++ e) := by
  obtain ⟨mid, s, i, hshape, hmid, hs, hi, _⟩ :=
    processCallArgs_shape (execute_analyze_document env st nest) env st ctx fn_name fn_args
      (analyze_items_subAgent env st nest ctx fn_args)
  refine ⟨?_, ?_, ?_, ?_, ?_⟩
  · rw [hshape]
    have hmid0 := countP_toolResult_zero_of_subAgent mid hmid
    rcases hs with hs | ⟨ss, hs⟩ <;> rcases hi with hi | ⟨ii, hi⟩ <;>
      subst hs <;> subst hi <;>
      simp [List.countP_cons, List.countP_append, isToolResult, hmid0]
  · rw [hshape]
    simp
  · intro h1 h2
    simp [processCallArgs, h1, h2]
  · intro e h2 herr
    have h1 : fn_name ≠ "analyze_document" := by
      rintro rfl
      simp [TOOL_EXECUTOR_NAMES] at h2
    simp [processCallArgs, h1, h2, herr]
  · intro e h1 herr
    subst h1
    simp [processCallArgs, herr]

def envC3 : AgentEnv :=
  ⟨⟨fun _ _ _ => ⟨"", []⟩, fun _ _ => []⟩,
    fun _ => some [],
    fun _ _ => .ok [],
    fun _ => .error ("boom"),
    fun _ _ => .ok none,
    fun _ => .ok [],
    ⟨fun _ => .ok "", fun _ _ => .ok [], fun _ => ""⟩⟩

def stC3 : Settings := ⟨true, false, "", 5, 1, 3, ""⟩

def ctxC3 : AgentContext := ⟨"u", "q", [Msg.chat ("user") ("q")], "sys", none, [], []⟩

/-- Witness for C3: a failing web-search executor yields the
`Tool execution failed` result text. -/
theorem tool_dispatch_error_handling_witness :
    ("web_search" ∈ TOOL_EXECUTOR_NAMES) ∧
    dispatchKnown envC3 stC3 ctxC3 ("web_search") [] = .error ("boom") ∧
    (processCallArgs (execute_analyze_document envC3 stC3 0) envC3 stC3 ctxC3
      ("web_search") []).2.1 = "Tool execution failed: boom" :=
  ⟨by decide, by rfl,
    (tool_dispatch_error_handling envC3 stC3 0 ctxC3 ("web_search") []).2.2.2.1 ("boom")
      (by decide) (by rfl)⟩

lemma ctx_update_append (ctx : AgentContext) (a b : List ImageRef) :
    { ({ ctx with image_refs := ctx.image_refs ++ a }) with
        image_refs := ({ ctx with image_refs := ctx.image_refs ++ a }).image_refs ++ b } =
      { ctx with image_refs := ctx.image_refs ++ (a ++ b) } := by
  simp

/-- `collectImages` only appends to `image_refs`; every other field of the
context is untouched. -/
lemma collectImages_frame (st : Settings) (m : ℚ) :
    ∀ (l : List Chunk) (seen : List (String × ℕ)) (fig : ℕ) (ctx : AgentContext),
    ∃ δ, collectImages st m l seen fig ctx =
      { ctx with image_refs := ctx.image_refs ++ δ } := by
  intro l
  induction l with
  | nil =>
    intro seen fig ctx
    exact ⟨[], by simp [collectImages]⟩
  | cons c rest ih =>
    intro seen fig ctx
    simp only [collectImages]
    repeat' split
    all_goals
      first
        | exact ih _ _ _
        | exact ⟨_, rfl⟩
        | (obtain ⟨δ, hδ⟩ := ih _ _ _
           exact ⟨_, hδ.trans (ctx_update_append ctx _ δ)⟩)

/-- The context delivered by `_execute_retrieve`: `sources` is set to this
result's entries (when chunks were found), `image_refs` is appended to, and
every other field is untouched. -/
lemma execute_retrieve_core_frame (st : Settings) (chunks : List Chunk)
    (ctx : AgentContext) :
    (∃ δ, (execute_retrieve_core st chunks ctx).2.image_refs = ctx.image_refs ++ δ) ∧
    (execute_retrieve_core st chunks ctx).2.system_prompt = ctx.system_prompt ∧
    (execute_retrieve_core st chunks ctx).2.chat_messages = ctx.chat_messages ∧
    (execute_retrieve_core st chunks ctx).2.user_id = ctx.user_id ∧
    (chunks ≠ [] →
      (execute_retrieve_core st chunks ctx).2.sources = chunks.map mkSourceRef) := by
  by_cases h : chunks = []
  · subst h
    refine ⟨⟨[], ?_⟩, ?_, ?_, ?_, fun hne => absurd rfl hne⟩ <;>
      simp [execute_retrieve_core]
  · obtain ⟨δ, hδ⟩ := collectImages_frame st
      ((((chunks.head?).map (fun c => c.similarity)).getD 0) * st.image_similarity_min_ratio)
      chunks [] 0 { ctx with sources := chunks.map mkSourceRef }
    have h2 : (execute_retrieve_core st chunks ctx).2 =
        { ctx with sources := chunks.map mkSourceRef, image_refs := ctx.image_refs ++ δ } := by
      simp only [execute_retrieve_core, if_neg h]
      rw [hδ]
    refine ⟨⟨δ, by rw [h2]⟩, by rw [h2], by rw [h2], by rw [h2], fun _ => by rw [h2]⟩

def stC6 : Settings := ⟨true, false, "", 5, 1, 3, ""⟩

def ctxC6 : AgentContext := ⟨"u", "q", [Msg.chat ("user") ("q")], "sys", none, [], []⟩

def chunkA : Chunk := ⟨"c1", "d1", "a.pdf", "t1", 1, none⟩

def chunkB : Chunk := ⟨"c2", "d2", "b.pdf", "t2", 1, none⟩

/-- C6 (code bug): `image_refs` is accumulated across retrieval executions,
but `sources` is not — each non-empty retrieval REPLACES `ctx.sources` with
its own result list (`ctx.sources = [...]` at agent_service.py line 142),
so after a second retrieval the first retrieval's source entries are gone,
contradicting the `# Accumulated across rounds` comment on the field and
the spec's "accumulated list". -/
theorem retrieve_sources_replaced_bug :
    (∀ st chunks ctx, chunks ≠ [] →
      (execute_retrieve_core st chunks ctx).2.sources = chunks.map mkSourceRef) ∧
    (∀ st chunks ctx, ∃ δ,
      (execute_retrieve_core st chunks ctx).2.image_refs = ctx.image_refs ++ δ) ∧
    (execute_retrieve_core stC6 [chunkA] ctxC6).2.sources.map (fun s => s.filename) =
      ["a.pdf"] ∧
    (execute_retrieve_core stC6 [chunkB]
        (execute_retrieve_core stC6 [chunkA] ctxC6).2).2.sources.map (fun s => s.filename) =
      ["b.pdf"] := by
  refine ⟨fun st chunks ctx hne => (execute_retrieve_core_frame st chunks ctx).2.2.2.2 hne,
    fun st chunks ctx => (execute_retrieve_core_frame st chunks ctx).1, ?_, ?_⟩ <;> decide

/-- Witness for C6 at a concrete non-empty retrieval. -/
theorem retrieve_sources_replaced_bug_witness :
    ([chunkA] ≠ ([] : List Chunk)) ∧
    (execute_retrieve_core stC6 [chunkA] ctxC6).2.sources = [chunkA].map mkSourceRef :=
  ⟨by decide, retrieve_sources_replaced_bug.1 stC6 [chunkA] ctxC6 (by decide)⟩

/-- C5 (amended): a document-analysis call with an existing, non-empty
document runs the nested agent loop on a fresh sub-context; the nested
loop's tool-call, tool-result and plain-text events are wrapped as
`SubAgentEvent{inner}` and re-emitted, while its SourcesEvents, ImagesEvents
AND already-wrapped SubAgentEvents (from deeper nesting) are dropped; the
concatenation of the nested loop's text deltas becomes the tool result
string, yielded last instead of being streamed as parent answer text.  The
original "every event except Sources/Images is wrapped" fails for nested
SubAgentEvents — see the counterexample. -/
theorem analyze_document_wraps_sub_events (env : AgentEnv) (st : Settings) (nest : ℕ)
    (ctx : AgentContext) (args : Args) (docId : String) (contents : List String)
    (hdoc : env.getDocumentByFilename ctx.user_id (argGet args ("filename") ("")) =
      .ok (some docId))
    (hchunks : env.getChunksByDocument docId = .ok contents)
    (hne : contents ≠ []) :
    (execute_analyze_document env st (nest + 1) ctx args =
      (((run_agent_loop env st nest (analyzeSubContext ctx args contents)).filterMap
          wrapSubEvent) ++
        [AnalyzeItem.fin (String.join ((run_agent_loop env st nest
            (analyzeSubContext ctx args contents)).filterMap textDelta))], none)) ∧
    (∀ ss, wrapSubEvent (Event.sources ss) = none) ∧
    (∀ ii, wrapSubEvent (Event.images ii) = none) ∧
    (∀ e, wrapSubEvent (Event.subAgent e) = none) ∧
    (∀ n a, wrapSubEvent (Event.toolCall n a) =
      some (AnalyzeItem.ev (Event.subAgent (Event.toolCall n a)))) ∧
    (∀ n r, wrapSubEvent (Event.toolResult n r) =
      some (AnalyzeItem.ev (Event.subAgent (Event.toolResult n r)))) ∧
    (∀ s, wrapSubEvent (Event.text s) =
      some (AnalyzeItem.ev (Event.subAgent (Event.text s)))) := by
  refine ⟨?_, fun ss => rfl, fun ii => rfl, fun e => rfl, fun n a => rfl,
    fun n r => rfl, fun s => rfl⟩
  simp only [execute_analyze_document, execute_analyze_document_body, hdoc, hchunks,
    run_agent_loop, hne, if_false, ite_false]

def argsC5A1 : Args := [("filename", "f1"), ("question", "q1")]

def argsC5A2 : Args := [("filename", "f2"), ("question", "q2")]

def envC5 : AgentEnv :=
  ⟨⟨fun msgs _ _ =>
      if msgs = [Msg.chat ("user") ("q0")] then ⟨"", [⟨"1", "analyze_document", "a1"⟩]⟩
      else if msgs = [Msg.chat ("user") ("q1")] then ⟨"", [⟨"2", "analyze_document", "a2"⟩]⟩
      else ⟨"", []⟩,
    fun msgs _ => if msgs = [Msg.chat ("user") ("q2")] then ["hi"] else []⟩,
    fun s => if s = "a1" then some argsC5A1 else if s = "a2" then some argsC5A2 else some [],
    fun _ _ => .ok [],
    fun _ => .ok "",
    fun _ fname => .ok (some fname),
    fun _ => .ok ["body"],
    ⟨fun _ => .ok "", fun _ _ => .ok [], fun _ => ""⟩⟩

def stC5 : Settings := ⟨true, false, "", 5, 1, 3, ""⟩

def ctxC5 : AgentContext := ⟨"u", "q0", [Msg.chat ("user") ("q0")], "sys", none, [], []⟩

/-- Counterexample to C5 as stated: the nested loop spawned by the parent
analyze call itself contains a doubly-nested `SubAgentEvent` (its own
analyze sub-sub-agent's text); the parent wrap filter DROPS it instead of
re-wrapping it, so this nested-loop event — which is neither a SourcesEvent
nor an ImagesEvent — appears in the parent's stream in no form. -/
theorem sub_agent_wrap_claim_false :
    Event.subAgent (Event.text ("hi")) ∈
      run_agent_loop envC5 stC5 1 (analyzeSubContext ctxC5 argsC5A1 ["body"]) ∧
    Event.subAgent (Event.subAgent (Event.text ("hi"))) ∉
      run_agent_loop envC5 stC5 2 ctxC5 ∧
    Event.subAgent (Event.text ("hi")) ∉ run_agent_loop envC5 stC5 2 ctxC5 := by
  decide

/-- Witness for C5 (amended) at the concrete nested-analysis environment. -/
theorem analyze_document_wraps_sub_events_witness :
    (envC5.getDocumentByFilename ctxC5.user_id (argGet argsC5A1 ("filename") ("")) =
        .ok (some ("f1")) ∧
      envC5.getChunksByDocument ("f1") = .ok ["body"] ∧ (["body"] : List String) ≠ []) ∧
    execute_analyze_document envC5 stC5 1 ctxC5 argsC5A1 =
      (((run_agent_loop envC5 stC5 0 (analyzeSubContext ctxC5 argsC5A1 ["body"])).filterMap
          wrapSubEvent) ++
        [AnalyzeItem.fin (String.join ((run_agent_loop envC5 stC5 0
            (analyzeSubContext ctxC5 argsC5A1 ["body"])).filterMap textDelta))], none) :=
  ⟨⟨rfl, rfl, by decide⟩,
    (analyze_document_wraps_sub_events envC5 stC5 0 ctxC5 argsC5A1 ("f1") ["body"]
      rfl rfl (by decide)).1⟩

def isText : Event → Bool
  | Event.text _ => true
  | _ => false

def isAssistantMsg : Msg → Bool
  | Msg.assistant _ _ => true
  | _ => false

lemma isText_false_of_subAgent (e : Event) (h : isSubAgent e = true) :
    isText e = false := by
  cases e <;> simp [isSubAgent] at h <;> rfl

lemma dispatchKnown_ok_system_prompt (env : AgentEnv) (st : Settings)
    (ctx : AgentContext) (name : String) (args : Args) (r : String)
    (ctx' : AgentContext)
    (h : dispatchKnown env st ctx name args = .ok (r, ctx')) :
    ctx'.system_prompt = ctx.system_prompt := by
  unfold dispatchKnown at h
  split at h
  · rcases hm : env.mergedChunks ctx args with e | chunks <;> rw [hm] at h
    · cases h
    · injection h with h
      have h2 := congrArg Prod.snd h
      simp at h2
      rw [← h2]
      exact (execute_retrieve_core_frame st chunks ctx).2.1
  · split at h
    · injection h with h
      have h2 := congrArg Prod.snd h
      simp at h2
      rw [← h2]
    · rcases hw : env.webSearch (argGet args ("query") ("")) with e | s <;> rw [hw] at h
      · cases h
      · injection h with h
        have h2 := congrArg Prod.snd h
        simp at h2
        rw [← h2]

lemma processCallArgs_ctx_system_prompt
    (analyze : AgentContext → Args → List AnalyzeItem × Option String)
    (env : AgentEnv) (st : Settings) (ctx : AgentContext)
    (fn_name : String) (fn_args : Args) :
    (processCallArgs analyze env st ctx fn_name fn_args).2.2.system_prompt =
      ctx.system_prompt := by
  simp only [processCallArgs]
  split
  · rfl
  · split
    · rcases hdk : dispatchKnown env st ctx fn_name fn_args with e | rc
      · simp [hdk]
      · obtain ⟨r, ctx'⟩ := rc
        simp only [hdk]
        exact dispatchKnown_ok_system_prompt env st ctx fn_name fn_args r ctx' hdk
    · rfl

lemma processCall_system_prompt
    (analyze : AgentContext → Args → List AnalyzeItem × Option String)
    (env : AgentEnv) (st : Settings) (ctx : AgentContext) (call : AgentToolCall) :
    (processCall analyze env st ctx call).2.2.system_prompt = ctx.system_prompt :=
  processCallArgs_ctx_system_prompt analyze env st ctx call.name
    ((env.parseJson call.arguments).getD [])

lemma processCall_no_text
    (analyze : AgentContext → Args → List AnalyzeItem × Option String)
    (env : AgentEnv) (st : Settings) (ctx : AgentContext) (call : AgentToolCall)
    (hsub : ∀ e ∈ itemEvents
        (analyze ctx ((env.parseJson call.arguments).getD [])).1, isSubAgent e = true) :
    ∀ e ∈ (processCall analyze env st ctx call).1, isText e = false := by
  obtain ⟨mid, s, i, hshape, hmid, hs, hi, _⟩ :=
    processCallArgs_shape analyze env st ctx call.name
      ((env.parseJson call.arguments).getD []) hsub
  intro e he
  rw [show processCall analyze env st ctx call =
      processCallArgs analyze env st ctx call.name
        ((env.parseJson call.arguments).getD []) from rfl, hshape] at he
  rcases List.mem_cons.mp he with rfl | he
  · rfl
  rcases List.mem_append.mp he with he | he
  · exact isText_false_of_subAgent e (hmid e he)
  rcases List.mem_cons.mp he with rfl | he
  · rfl
  rcases List.mem_append.mp he with he | he
  · rcases hs with rfl | ⟨ss, rfl⟩
    · simp at he
    · rw [List.mem_singleton] at he
      subst he
      rfl
  · rcases hi with rfl | ⟨ii, rfl⟩
    · simp at he
    · rw [List.mem_singleton] at he
      subst he
      rfl

lemma processCalls_frame
    (analyze : AgentContext → Args → List AnalyzeItem × Option String)
    (env : AgentEnv) (st : Settings)
    (hsub : ∀ ctx args, ∀ e ∈ itemEvents (analyze ctx args).1, isSubAgent e = true) :
    ∀ (calls : List AgentToolCall) (ctx : AgentContext) (messages : List Msg),
      (processCalls analyze env st calls ctx messages).2.1.system_prompt =
        ctx.system_prompt ∧
      (∃ t, (processCalls analyze env st calls ctx messages).2.2 = messages ++ t ∧
        t.countP isAssistantMsg = 0) ∧
      (∀ e ∈ (processCalls analyze env st calls ctx messages).1, isText e = false) := by
  intro calls
  induction calls with
  | nil =>
    intro ctx messages
    refine ⟨rfl, ⟨[], by simp [processCalls], rfl⟩, ?_⟩
    intro e he
    simp [processCalls] at he
  | cons call rest ih =>
    intro ctx messages
    obtain ⟨hsp, ⟨t, ht, htc⟩, hev⟩ := ih (processCall analyze env st ctx call).2.2
      (messages ++ [Msg.tool call.id (processCall analyze env st ctx call).2.1])
    simp only [processCalls]
    refine ⟨?_, ⟨Msg.tool call.id (processCall analyze env st ctx call).2.1 :: t, ?_, ?_⟩, ?_⟩
    · exact hsp.trans (processCall_system_prompt analyze env st ctx call)
    · rw [ht]
      simp
    · simp [List.countP_cons, isAssistantMsg, htc]
    · intro e he
      rcases List.mem_append.mp he with he | he
      · exact processCall_no_text analyze env st ctx call
          (hsub ctx ((env.parseJson call.arguments).getD [])) e he
      · exact hev e he

lemma loopRounds_forced_stream
    (analyze : AgentContext → Args → List AnalyzeItem × Option String)
    (env : AgentEnv) (st : Settings)
    (hsub : ∀ ctx args, ∀ e ∈ itemEvents (analyze ctx args).1, isSubAgent e = true)
    (H : ∀ msgs sys tools, (env.llm.withTools msgs sys tools).tool_calls ≠ []) :
    ∀ (rounds : ℕ) (ctx : AgentContext) (messages : List Msg),
      ∃ evs tail,
        loopRounds analyze env st rounds ctx messages =
          evs ++ (env.llm.stream (messages ++ tail) ctx.system_prompt).map Event.text ∧
        tail.countP isAssistantMsg = rounds ∧
        ∀ e ∈ evs, isText e = false := by
  intro rounds
  induction rounds with
  | zero =>
    intro ctx messages
    exact ⟨[], [], by simp [loopRounds], rfl, by simp⟩
  | succ rounds ih =>
    intro ctx messages
    simp only [loopRounds]
    rw [if_neg (H messages ctx.system_prompt (get_enabled_tools st))]
    obtain ⟨hsp, ⟨t, ht, htc⟩, hev⟩ := processCalls_frame analyze env st hsub
      (env.llm.withTools messages ctx.system_prompt (get_enabled_tools st)).tool_calls ctx
      (messages ++ [msgToDict (env.llm.withTools messages ctx.system_prompt
        (get_enabled_tools st))])
    obtain ⟨evs, tail, hrun, hcount, hevs⟩ := ih
      (processCalls analyze env st
        (env.llm.withTools messages ctx.system_prompt (get_enabled_tools st)).tool_calls ctx
        (messages ++ [msgToDict (env.llm.withTools messages ctx.system_prompt
          (get_enabled_tools st))])).2.1
      (processCalls analyze env st
        (env.llm.withTools messages ctx.system_prompt (get_enabled_tools st)).tool_calls ctx
        (messages ++ [msgToDict (env.llm.withTools messages ctx.system_prompt
          (get_enabled_tools st))])).2.2
    refine ⟨(processCalls analyze env st
        (env.llm.withTools messages ctx.system_prompt (get_enabled_tools st)).tool_calls ctx
        (messages ++ [msgToDict (env.llm.withTools messages ctx.system_prompt
          (get_enabled_tools st))])).1 ++ evs,
      msgToDict (env.llm.withTools messages ctx.system_prompt (get_enabled_tools st)) ::
        (t ++ tail), ?_, ?_, ?_⟩
    · rw [hrun, ht, hsp]
      simp [List.append_assoc]
    · simp [List.countP_cons, List.countP_append, htc, hcount, msgToDict, isAssistantMsg]
    · intro e he
      rcases List.mem_append.mp he with he | he
      · exact hev e he
      · exact hevs e he

/-- C2: whenever the model returns at least one tool call on every decision
step, one agent-loop invocation runs exactly `MAX_ROUNDS = 5`
decide-then-execute rounds (the final streamed history carries exactly five
assistant tool-call messages) and then falls back to a forced streaming
call with the accumulated message history; every event before that final
stream is a tool/sources/images/sub-agent event, never loop-authored answer
text, so the stream is finite and no sixth tool round occurs. -/
theorem agent_round_cap (env : AgentEnv) (st : Settings) (nest : ℕ) (ctx : AgentContext)
    (H : ∀ msgs sys tools, (env.llm.withTools msgs sys tools).tool_calls ≠ []) :
    ∃ evs tail,
      run_agent_loop env st nest ctx =
        evs ++ (env.llm.stream (ctx.chat_messages ++ tail) ctx.system_prompt).map
          Event.text ∧
      tail.countP isAssistantMsg = MAX_ROUNDS ∧
      MAX_ROUNDS = 5 ∧
      ∀ e ∈ evs, isText e = false := by
  obtain ⟨evs, tail, hrun, hc, hev⟩ := loopRounds_forced_stream
    (execute_analyze_document env st nest) env st
    (fun c a => analyze_items_subAgent env st nest c a) H MAX_ROUNDS ctx ctx.chat_messages
  exact ⟨evs, tail, hrun, hc, rfl, hev⟩

def envC2 : AgentEnv :=
  ⟨⟨fun _ _ _ => ⟨"", [⟨"1", "noop", "x"⟩]⟩, fun _ _ => ["done"]⟩,
    fun _ => some [],
    fun _ _ => .ok [],
    fun _ => .ok "",
    fun _ _ => .ok none,
    fun _ => .ok [],
    ⟨fun _ => .ok "", fun _ _ => .ok [], fun _ => ""⟩⟩

def stC2 : Settings := ⟨true, false, "", 5, 1, 3, ""⟩

def ctxC2 : AgentContext := ⟨"u", "q", [Msg.chat ("user") ("q")], "sys", none, [], []⟩

/-- Witness for C2: a model that always requests one (unknown, harmless)
tool call. -/
theorem agent_round_cap_witness :
    (∀ msgs sys tools, (envC2.llm.withTools msgs sys tools).tool_calls ≠ []) ∧
    ∃ evs tail,
      run_agent_loop envC2 stC2 0 ctxC2 =
        evs ++ (envC2.llm.stream (ctxC2.chat_messages ++ tail) ctxC2.system_prompt).map
          Event.text ∧
      tail.countP isAssistantMsg = MAX_ROUNDS ∧
      MAX_ROUNDS = 5 ∧
      ∀ e ∈ evs, isText e = false :=
  ⟨fun _ _ _ => by simp [envC2],
    agent_round_cap envC2 stC2 0 ctxC2 (fun _ _ _ => by simp [envC2])⟩
